import Mathlib

/-!
# goyaml: struct field descriptors, the zero-value classifier and error handling

A shallow embedding of `getStructFields`, `isZero`, `handleErr`, `Unmarshal` and `Marshal`
from `goyaml.go`.

Modelling conventions.
* Go strings are Lean `String`s, i.e. valid UTF-8 text.  Byte indices returned by
  `strings.LastIndex(_, "/")` are rendered as character indices: `/` is a one-byte
  character, so slicing at it cuts the same text either way.
* `strings.ToLower` belongs to the Go library; every definition that needs it takes it
  as the parameter `ToLower`, and every theorem holds for an arbitrary one.
* A Go `map[string]V` is a `GoMap V`, a list of bindings; a `*structFields` is the
  `structFields` value it points to (nothing in the program mutates one after it is built).
* The package-level cache `fieldMap` is threaded through `getStructFields` explicitly.
  The locks do not appear: the model is sequential.
* A non-nil panic value is a `PanicValue`; what `recover()` returns is an
  `Option PanicValue`, `none` for nil.  The decoder and the encoder are not part of
  `goyaml.go`: `Unmarshal` and `Marshal` take the way their body ends as an argument, a
  `Body`, which is completion or a panic whose value may be nil.
-/

namespace Goyaml

/-! ## Go maps -/

/-- A Go `map[string]V`: a list of bindings, newest first. -/
structure GoMap (V : Type) where
  entries : List (String × V)
deriving DecidableEq, Repr

namespace GoMap

/-- The value of `make(map[string]V)`. -/
def empty {V : Type} : GoMap V := ⟨[]⟩

/-- The lookup `v, found := m[k]`: `some v` when found. -/
def lookup {V : Type} (m : GoMap V) (k : String) : Option V :=
  List.lookup k m.entries

/-- The assignment `m[k] = v`: any older binding of `k` is replaced. -/
def store {V : Type} (m : GoMap V) (k : String) (v : V) : GoMap V :=
  ⟨(k, v) :: m.entries.filter (fun e => e.1 != k)⟩

/-- The value of `len(m)`. -/
def len {V : Type} (m : GoMap V) : Nat := m.entries.length

end GoMap

/-! ## Outcomes of a call -/

/-- The value carried by a Go `panic`, as far as `handleErr` tells them apart. -/
inductive PanicValue where
  /-- a value implementing `runtime.Error` (e.g. index out of range) -/
  | runtimeError (msg : String)
  /-- a plain `string` -/
  | str (s : String)
  /-- an `os.Error` that is not a `runtime.Error` -/
  | osError (msg : String)
  /-- anything else -/
  | other (tag : Nat)
deriving DecidableEq, Repr

/-- How a call of a function of type `(T, os.Error)` ends. -/
inductive Outcome (α : Type) where
  /-- `return a, nil` -/
  | ok (a : α)
  /-- `return nil, os.NewError(msg)` -/
  | error (msg : String)
  /-- `panic(v)` -/
  | panic (v : PanicValue)
deriving DecidableEq, Repr

/-! ## Reflection data -/

/-- The part of `reflect.StructField` the program reads. -/
structure StructField where
  Name : String
  PkgPath : String
  Tag : String
deriving DecidableEq, Repr

/-- The part of `*reflect.StructType` the program reads: `PkgPath()`, `Name()`,
`String()` and the fields `Field(0) .. Field(NumField()-1)`. -/
structure StructType where
  PkgPath : String
  Name : String
  Fields : List StructField
  String : String
deriving DecidableEq, Repr

/-- The method `st.NumField()`. -/
def StructType.NumField (st : StructType) : Nat := st.Fields.length

/-! ## Field descriptors -/

/-- The Go struct `fieldInfo`. -/
structure fieldInfo where
  Key : String
  Num : Nat
  Conditional : Bool
deriving DecidableEq, Repr

/-- The zero value of `fieldInfo`, which `make([]fieldInfo, n)` fills the slice with. -/
def fieldInfo.zero : fieldInfo := ⟨"", 0, false⟩

/-- The Go struct `structFields`. -/
structure structFields where
  Map : GoMap fieldInfo
  List : List fieldInfo
deriving DecidableEq, Repr

/-! ## String helpers from the Go library -/

/-- Left-to-right scan behind `LastIndex`: `i` is the index of the head of the list,
`last` the index of the latest separator seen so far (or `-1`). -/
def lastIndexFrom (sep : Char) : List Char → Nat → Int → Int
  | [], _, last => last
  | c :: cs, i, last => lastIndexFrom sep cs (i + 1) (if c = sep then (i : Int) else last)

/-- The call `strings.LastIndex(s, sep)` for a one-character separator: the index of
the last occurrence of `sep` in `s`, or `-1` when there is none. -/
def LastIndex (s : String) (sep : Char) : Int :=
  lastIndexFrom sep s.data 0 (-1)

/-- The slice expression `s[i:]`. -/
def sliceFrom (s : String) (i : Nat) : String := ⟨s.data.drop i⟩

/-- The slice expression `s[:i]`. -/
def sliceTo (s : String) (i : Nat) : String := ⟨s.data.take i⟩

/-! ## getStructFields -/

/-- Lines 95-102: the `range` loop over the flag characters.  `conditional` is the
current value of `info.Conditional`. -/
def scanFlags : List Char → Bool → Outcome Bool
  | [], conditional => .ok conditional
  | c :: cs, _ =>
    if c = 'c' then scanFlags cs true
    else .panic (.str ("Unsupported field flag: " ++ String.singleton c))

/-- Lines 92-110: the descriptor of the visible field `field` at index `i`. -/
def makeInfo (ToLower : String → String) (field : StructField) (i : Nat) :
    Outcome fieldInfo :=
  let s := LastIndex field.Tag '/'
  if s ≠ -1 then
    match scanFlags (sliceFrom field.Tag (s.toNat + 1)).data false with
    | .ok conditional =>
      let tag := sliceTo field.Tag s.toNat
      .ok ⟨if tag ≠ "" then tag else ToLower field.Name, i, conditional⟩
    | .error msg => .error msg
    | .panic v => .panic v
  else
    .ok ⟨if field.Tag ≠ "" then field.Tag else ToLower field.Name, i, false⟩

/-- Lines 86-119: the loop over the fields, `fields` being `Field(i), Field(i+1), ...`.
An indexed write past the end of `fieldsList` is a run-time panic, as in Go. -/
def fieldLoop (ToLower : String → String) (typeString : String) :
    List StructField → Nat → GoMap fieldInfo → List fieldInfo →
      Outcome (GoMap fieldInfo × List fieldInfo)
  | [], _, fieldsMap, fieldsList => .ok (fieldsMap, fieldsList)
  | field :: rest, i, fieldsMap, fieldsList =>
    if field.PkgPath ≠ "" then
      fieldLoop ToLower typeString rest (i + 1) fieldsMap fieldsList
    else
      match makeInfo ToLower field i with
      | .panic v => .panic v
      | .error msg => .error msg
      | .ok info =>
        if (fieldsMap.lookup info.Key).isSome then
          .error ("Duplicated key '" ++ info.Key ++ "' in struct " ++ typeString)
        else if fieldsMap.len < fieldsList.length then
          fieldLoop ToLower typeString rest (i + 1)
            (fieldsMap.store info.Key info) (fieldsList.set fieldsMap.len info)
        else
          .panic (.runtimeError "index out of range")

/-- Lines 83-121: the descriptor set computed from the fields of `st`, without the cache. -/
def buildFields (ToLower : String → String) (st : StructType) : Outcome structFields :=
  let n := st.NumField
  match fieldLoop ToLower st.String st.Fields 0 GoMap.empty (List.replicate n fieldInfo.zero) with
  | .ok (fieldsMap, fieldsList) => .ok ⟨fieldsMap, fieldsList.take fieldsMap.len⟩
  | .error msg => .error msg
  | .panic v => .panic v

/-- The function `getStructFields`: the outcome of the call and the cache `fieldMap`
after it. -/
def getStructFields (ToLower : String → String) (st : StructType)
    (fieldMap : GoMap structFields) : Outcome structFields × GoMap structFields :=
  let path := st.PkgPath
  let name := st.Name
  let fullName := path ++ "." ++ name
  match fieldMap.lookup fullName with
  | some fields => (.ok fields, fieldMap)
  | none =>
    match buildFields ToLower st with
    | .ok fields =>
      if fullName ≠ "." then (.ok fields, fieldMap.store fullName fields)
      else (.ok fields, fieldMap)
    | .error msg => (.error msg, fieldMap)
    | .panic v => (.panic v, fieldMap)

/-- The cache states the program can be in: the empty map `fieldMap` starts as, and
the state after any call of `getStructFields` from such a state. -/
inductive Reachable (ToLower : String → String) : GoMap structFields → Prop where
  | start : Reachable ToLower GoMap.empty
  | call (st : StructType) (fieldMap : GoMap structFields) :
      Reachable ToLower fieldMap → Reachable ToLower (getStructFields ToLower st fieldMap).2

/-! ## isZero -/

/-- The implementations of `reflect.Value`, with the data `isZero` can observe: a nil
slice, map, pointer or interface holds `none`.  `NoValue` is the nil `reflect.Value`
that `reflect.NewValue(nil)` returns. -/
inductive Value where
  | NoValue
  | BoolValue (b : Bool)
  | IntValue (n : Int)
  | UintValue (n : Nat)
  | FloatValue (mantissa exponent : Int)
  | ComplexValue (re im : Int)
  | StringValue (s : String)
  | ArrayValue (elems : List Value)
  | ChanValue (isNil : Bool)
  | FuncValue (isNil : Bool)
  | InterfaceValue (elem : Option Value)
  | MapValue (entries : Option (List (Value × Value)))
  | PtrValue (elem : Option Value)
  | SliceValue (elems : Option (List Value))
  | StructValue (fields : List Value)
  | UnsafePointerValue (addr : Nat)

/-- The method `Len()` of a slice value: `0` for a nil slice. -/
def Value.sliceLen (elems : Option (List Value)) : Nat := (elems.getD []).length

/-- The method `Len()` of a map value: `0` for a nil map. -/
def Value.mapLen (entries : Option (List (Value × Value))) : Nat := (entries.getD []).length

/-- The function `isZero`.  `len` of a string counts bytes. -/
def isZero : Value → Bool
  | .StringValue s => s.utf8ByteSize == 0
  | .InterfaceValue elem => elem.isNone
  | .SliceValue elems => Value.sliceLen elems == 0
  | .MapValue entries => Value.mapLen entries == 0
  | .IntValue n => n == 0
  | .UintValue n => n == 0
  | .BoolValue b => !b
  | _ => false

/-- Modelled from the spec: the encoder, which is not part of `goyaml.go`, skips a field
"entirely when `conditional` is true and the Value Classifier reports zero". -/
def skippedOnEncode (info : fieldInfo) (v : Value) : Bool :=
  info.Conditional && isZero v

/-! ## handleErr and the entry points -/

/-- An `os.Error` value, known by the text its `String()` returns; `runtime` tells
whether its type also implements `runtime.Error`. -/
structure OsError where
  text : String
  runtime : Bool
deriving DecidableEq, Repr

/-- The conversion `os.ErrorString(s)`. -/
def OsError.ErrorString (s : String) : OsError := ⟨s, false⟩

/-- Whether the type assertion `r.(runtime.Error)` succeeds. -/
def PanicValue.isRuntimeError : PanicValue → Bool
  | .runtimeError _ => true
  | _ => false

/-- The type assertion `r.(string)`. -/
def PanicValue.asString : PanicValue → Option String
  | .str s => some s
  | _ => none

/-- The type assertion `r.(os.Error)`.  It succeeds on a `runtime.Error` too: that
interface includes `os.Error`. -/
def PanicValue.asOsError : PanicValue → Option OsError
  | .runtimeError msg => some ⟨msg, true⟩
  | .osError msg => some ⟨msg, false⟩
  | _ => none

/-- The function `handleErr`, run as a deferred call.  `r` is what `recover()` returns
(`none` for nil) and `err` the value of `*err` on entry; the result is the value of
`*err` on exit and the value `handleErr` panics with, if it does. -/
def handleErr (r : Option PanicValue) (err : Option OsError) :
    Option OsError × Option PanicValue :=
  match r with
  | none => (err, none)
  | some r =>
    if r.isRuntimeError then (err, some r)
    else
      match r.asString with
      | some s => (some (OsError.ErrorString ("YAML error: " ++ s)), none)
      | none =>
        match r.asOsError with
        | some e => (some e, none)
        | none => (err, some r)

/-- How a call of `Marshal` or `Unmarshal` ends: it returns `out` and `err`, or a panic
with value `v` leaves it. -/
inductive EntryResult (α : Type) where
  | returned (out : α) (err : Option OsError)
  | panicked (v : PanicValue)
deriving DecidableEq, Repr

/-- How the body of an entry point ends, before its deferred calls run: it runs to
completion with the result `out`, or a call `panic(v)` leaves it, `v` being `none` for
`panic(nil)`. -/
inductive Body (α : Type) where
  | completed (out : α)
  | panicked (v : Option PanicValue)
deriving DecidableEq, Repr

/-- What `recover()` returns in the deferred `handleErr`: nil when the body completed,
the panic value otherwise, which is nil too after `panic(nil)`. -/
def Body.recover {α : Type} : Body α → Option PanicValue
  | .completed _ => none
  | .panicked v => v

/-- The function `Unmarshal`.  The decoder is not part of `goyaml.go`: `decode` is how
lines 35-37 end.  Either way `err` is nil when the deferred `handleErr` starts: line 38
sets it to nil, and a panic leaves it at its zero value. -/
def Unmarshal (decode : Body Unit) : EntryResult Unit :=
  match handleErr decode.recover none with
  | (err, none) => .returned () err
  | (_, some v) => .panicked v

/-- The function `Marshal`.  The encoder is not part of `goyaml.go`: `encode` is how
lines 43-47 end, `.completed out` with the bytes of `e.out`, or a panic, which leaves
`out` nil. -/
def Marshal (encode : Body (List Nat)) : EntryResult (List Nat) :=
  match encode with
  | .completed out =>
    match handleErr (Body.completed out).recover none with
    | (err, none) => .returned out err
    | (_, some v) => .panicked v
  | .panicked v =>
    match handleErr (Body.panicked v : Body (List Nat)).recover none with
    | (err, none) => .returned [] err
    | (_, some v2) => .panicked v2

/-! ## States of the cache and of the loop -/

/-- The cache states reached from `start` by calls of `getStructFields` on struct types
of the family `F`. -/
inductive ReachableVia (ToLower : String → String) (F : StructType → Prop)
    (start : GoMap structFields) : GoMap structFields → Prop where
  | refl : ReachableVia ToLower F start start
  | call (st : StructType) (fieldMap : GoMap structFields) :
      ReachableVia ToLower F start fieldMap → F st →
      ReachableVia ToLower F start (getStructFields ToLower st fieldMap).2

/-- The state of the loop of lines 86-119 at the top of iteration `i`: the outcome of
running it over `Field(0) .. Field(i-1)` from the initial state of lines 84-85. -/
def loopStateAt (ToLower : String → String) (st : StructType) (i : Nat) :
    Outcome (GoMap fieldInfo × List fieldInfo) :=
  fieldLoop ToLower st.String (st.Fields.take i) 0 GoMap.empty
    (List.replicate st.NumField fieldInfo.zero)

/-! ## Concrete inputs -/

/-- ASCII lower-casing, used to instantiate `ToLower` on concrete inputs. -/
def asciiLower (s : String) : String := ⟨s.data.map Char.toLower⟩

/-- A type whose visible fields `A` and `B` both get the key `k`; `b` is private. -/
def dupType : StructType :=
  ⟨"main", "T", [⟨"A", "", "k"⟩, ⟨"b", "main", "k"⟩, ⟨"B", "", "k/c"⟩], "main.T"⟩

/-- A type whose second visible field carries the unknown flag `x` and repeats the key
`a` of the first. -/
def flagType : StructType :=
  ⟨"main", "F", [⟨"A", "", "a/c"⟩, ⟨"B", "", "a/cx"⟩, ⟨"C", "", "a"⟩], "main.F"⟩

/-- A well-formed type: `X` tagged `x`, `Y` tagged `y/c`, a private `z`, an untagged `Foo`. -/
def goodType : StructType :=
  ⟨"main", "G", [⟨"X", "", "x"⟩, ⟨"Y", "", "y/c"⟩, ⟨"z", "main", ""⟩, ⟨"Foo", "", "/"⟩],
    "main.G"⟩

/-- An anonymous struct type: empty `PkgPath` and `Name`. -/
def anonType : StructType :=
  ⟨"", "", [⟨"A", "", "a"⟩, ⟨"B", "", "/c"⟩], "struct \x7b A int; B int \x7d"⟩

/-- The type `Point` with `X` annotated `x` and `Y` annotated `y,c`. -/
def pointComma : StructType :=
  ⟨"main", "Point", [⟨"X", "", "x"⟩, ⟨"Y", "", "y,c"⟩], "main.Point"⟩

/-- The type `Point` with `X` annotated `x` and `Y` annotated `y/c`. -/
def pointSlash : StructType :=
  ⟨"main", "Point", [⟨"X", "", "x"⟩, ⟨"Y", "", "y/c"⟩], "main.Point"⟩

/-- The descriptor set of `goodType`. -/
def goodFields : structFields :=
  ⟨⟨[("foo", ⟨"foo", 3, false⟩), ("y", ⟨"y", 1, true⟩), ("x", ⟨"x", 0, false⟩)]⟩,
    [⟨"x", 0, false⟩, ⟨"y", 1, true⟩, ⟨"foo", 3, false⟩]⟩

/-! ## Notions used by the specification -/

/-- The visible fields of `st` (those with `PkgPath == ""`), each with its index,
in declaration order. -/
def visibleFields (st : StructType) : List (Nat × StructField) :=
  st.Fields.enum.filter (fun p => p.2.PkgPath = "")

/-- The text after the last `/` of a tag; empty when the tag has no `/`. -/
def flagText (tag : String) : List Char :=
  if '/' ∈ tag.data then (tag.data.reverse.takeWhile (fun c => c ≠ '/')).reverse else []

/-- The tag with everything from its last `/` onwards removed; the tag itself when it
has no `/`. -/
def tagName (tag : String) : String :=
  if '/' ∈ tag.data then
    ⟨((tag.data.reverse.dropWhile (fun c => c ≠ '/')).drop 1).reverse⟩
  else tag

/-- The key the specification gives a field: its tag cut at the last `/` when that is
non-empty, else its lowercased name. -/
def specKey (ToLower : String → String) (f : StructField) : String :=
  if tagName f.Tag ≠ "" then tagName f.Tag else ToLower f.Name

/-- The first character other than `c` after the last `/` of a tag, if there is one. -/
def badFlag (tag : String) : Option Char :=
  (flagText tag).find? (fun c => c ≠ 'c')

/-- The descriptor the specification gives the visible field `p.2` of index `p.1`. -/
def specInfo (ToLower : String → String) (p : Nat × StructField) : fieldInfo :=
  ⟨specKey ToLower p.2, p.1, !(flagText p.2.Tag).isEmpty⟩

/-! ## Auxiliary: the loop over the visible fields alone -/

/-- The loop of `getStructFields` seen on the list of visible fields: `acc` is the list
of descriptors stored so far. -/
def collect (ToLower : String → String) (typeString : String) :
    List (Nat × StructField) → List fieldInfo → Outcome (List fieldInfo)
  | [], acc => .ok acc
  | p :: rest, acc =>
    match makeInfo ToLower p.2 p.1 with
    | .panic v => .panic v
    | .error msg => .error msg
    | .ok info =>
      if info.Key ∈ acc.map fieldInfo.Key then
        .error ("Duplicated key '" ++ info.Key ++ "' in struct " ++ typeString)
      else collect ToLower typeString rest (acc ++ [info])

/-- The map indexing the descriptors `acc` by key, as the loop builds it. -/
def keyIndex (acc : List fieldInfo) : GoMap fieldInfo :=
  ⟨(acc.map (fun e => (e.Key, e))).reverse⟩

/-- The visible fields among `fs`, the head of `fs` having index `i`. -/
def visibleFrom (i : Nat) (fs : List StructField) : List (Nat × StructField) :=
  (fs.enumFrom i).filter (fun p => p.2.PkgPath = "")

/-- The keys the specification gives a list of fields. -/
def specKeys (ToLower : String → String) (vis : List (Nat × StructField)) : List String :=
  vis.map (fun p => specKey ToLower p.2)

/-- The fields `pre` pass the loop on top of the stored descriptors `acc`: their flags
are all `c`, their keys are pairwise distinct and none is the key of a stored descriptor. -/
def Clean (ToLower : String → String) (pre : List (Nat × StructField))
    (acc : List fieldInfo) : Prop :=
  (∀ p ∈ pre, badFlag p.2.Tag = none) ∧ (specKeys ToLower pre).Nodup ∧
    ∀ k ∈ specKeys ToLower pre, k ∉ acc.map fieldInfo.Key

/-! ## Lemmas on strings -/

theorem lastIndexFrom_not_mem (sep : Char) (l : List Char) (i : Nat) (last : Int)
    (h : sep ∉ l) : lastIndexFrom sep l i last = last := by
  induction l generalizing i last with
  | nil => rfl
  | cons c cs ih =>
    have hc : c ≠ sep := fun e => h (by simp [e])
    have hcs : sep ∉ cs := fun e => h (by simp [e])
    simp [lastIndexFrom, hc, ih _ _ hcs]

theorem lastIndexFrom_split (sep : Char) (t r : List Char) (i : Nat) (last : Int)
    (h : sep ∉ r) : lastIndexFrom sep (t ++ sep :: r) i last = ((i + t.length : Nat) : Int) := by
  induction t generalizing i last with
  | nil => simp [lastIndexFrom, lastIndexFrom_not_mem sep r _ _ h]
  | cons c cs ih =>
    rw [List.cons_append, lastIndexFrom, ih]
    simp only [List.length_cons]
    congr 1
    omega

/-- A list containing `sep` splits at the last occurrence of `sep`. -/
theorem split_at_last (sep : Char) (l : List Char) (h : sep ∈ l) :
    ∃ t r, l = t ++ sep :: r ∧ sep ∉ r := by
  have h2 : sep ∈ l.reverse := List.mem_reverse.mpr h
  obtain ⟨a, b, hab, ha⟩ := List.eq_append_cons_of_mem h2
  refine ⟨b.reverse, a.reverse, ?_, by simpa using ha⟩
  have := congrArg List.reverse hab
  simpa using this

theorem flagText_split (tag : String) (t r : List Char) (h : tag.data = t ++ '/' :: r)
    (hr : '/' ∉ r) : flagText tag = r := by
  have hmem : '/' ∈ tag.data := by simp [h]
  have hall : ∀ a ∈ r.reverse, (decide (a ≠ '/')) = true := by
    intro a ha
    have : a ∈ r := List.mem_reverse.mp ha
    simp only [decide_eq_true_eq]
    rintro rfl
    exact hr this
  simp only [flagText, hmem, if_true, h, List.reverse_append, List.reverse_cons,
    List.append_assoc, List.singleton_append]
  rw [List.takeWhile_append_of_pos hall]
  simp

theorem tagName_split (tag : String) (t r : List Char) (h : tag.data = t ++ '/' :: r)
    (hr : '/' ∉ r) : tagName tag = ⟨t⟩ := by
  have hmem : '/' ∈ tag.data := by simp [h]
  have hall : ∀ a ∈ r.reverse, (decide (a ≠ '/')) = true := by
    intro a ha
    have : a ∈ r := List.mem_reverse.mp ha
    simp only [decide_eq_true_eq]
    rintro rfl
    exact hr this
  simp only [tagName, hmem, if_true, h, List.reverse_append, List.reverse_cons,
    List.append_assoc, List.singleton_append]
  rw [List.dropWhile_append_of_pos hall]
  simp

theorem flagText_no_slash (tag : String) (h : '/' ∉ tag.data) : flagText tag = [] := by
  simp [flagText, h]

theorem tagName_no_slash (tag : String) (h : '/' ∉ tag.data) : tagName tag = tag := by
  simp [tagName, h]

theorem scanFlags_eq (l : List Char) (b : Bool) :
    scanFlags l b =
      match l.find? (fun c => c ≠ 'c') with
      | some c => .panic (.str ("Unsupported field flag: " ++ String.singleton c))
      | none => .ok (b || !l.isEmpty) := by
  induction l generalizing b with
  | nil => simp [scanFlags]
  | cons c cs ih =>
    by_cases hc : c = 'c'
    · subst hc
      simp [scanFlags, ih]
    · simp [scanFlags, hc, List.find?]

/-- The descriptor computed by lines 92-110, in the terms of the specification. -/
theorem makeInfo_eq (ToLower : String → String) (f : StructField) (i : Nat) :
    makeInfo ToLower f i =
      match badFlag f.Tag with
      | some c => .panic (.str ("Unsupported field flag: " ++ String.singleton c))
      | none => .ok (specInfo ToLower (i, f)) := by
  by_cases hmem : '/' ∈ f.Tag.data
  · obtain ⟨t, r, htr, hr⟩ := split_at_last '/' f.Tag.data hmem
    have hli : LastIndex f.Tag '/' = (t.length : Int) := by
      simp [LastIndex, htr, lastIndexFrom_split '/' t r 0 (-1) hr]
    have hne : (t.length : Int) ≠ -1 := by omega
    have hft := flagText_split f.Tag t r htr hr
    have htn := tagName_split f.Tag t r htr hr
    simp only [makeInfo, hli, hne, ne_eq, not_false_eq_true, if_true, Int.toNat_ofNat,
      sliceFrom, sliceTo, htr, badFlag, hft, specInfo, specKey, htn]
    have hd : List.drop (t.length + 1) (t ++ '/' :: r) = r := by
      rw [List.drop_append_eq_append_drop]
      simp
    rw [hd, scanFlags_eq]
    cases hfind : List.find? (fun c => decide (c ≠ 'c')) r with
    | some c => rfl
    | none => simp
  · have hli : LastIndex f.Tag '/' = -1 := by
      simp [LastIndex, lastIndexFrom_not_mem '/' f.Tag.data 0 (-1) hmem]
    simp [makeInfo, hli, badFlag, flagText_no_slash _ hmem, tagName_no_slash _ hmem,
      specInfo, specKey]

/-! ## Lemmas on Go maps -/

theorem GoMap.lookup_store_self {V : Type} (m : GoMap V) (k : String) (v : V) :
    (m.store k v).lookup k = some v := by
  simp [GoMap.store, GoMap.lookup]

theorem GoMap.lookup_filter_ne {V : Type} (l : List (String × V)) (k k2 : String)
    (h : k2 ≠ k) : List.lookup k2 (l.filter (fun e => e.1 != k)) = List.lookup k2 l := by
  induction l with
  | nil => rfl
  | cons e es ih =>
    obtain ⟨a, b⟩ := e
    by_cases ha : a = k
    · subst ha
      have hne : (k2 == a) = false := by simpa using h
      simp [List.filter, List.lookup, hne, ih]
    · have hk : (a != k) = true := by simpa using ha
      simp only [List.filter, hk, List.lookup, ih]

theorem GoMap.lookup_store_ne {V : Type} (m : GoMap V) (k k2 : String) (v : V)
    (h : k2 ≠ k) : (m.store k v).lookup k2 = m.lookup k2 := by
  have hne : (k2 == k) = false := by simpa using h
  simp only [GoMap.store, GoMap.lookup, List.lookup, hne]
  exact GoMap.lookup_filter_ne m.entries k k2 h

theorem lookup_keyIndex_isSome (acc : List fieldInfo) (k : String) :
    ((keyIndex acc).lookup k).isSome = true ↔ k ∈ acc.map fieldInfo.Key := by
  simp only [GoMap.lookup, keyIndex, List.lookup_isSome_iff, List.mem_reverse, List.mem_map,
    beq_iff_eq]
  constructor
  · rintro ⟨p, ⟨e, he, rfl⟩, hk⟩
    exact ⟨e, he, hk.symm⟩
  · rintro ⟨e, he, hk⟩
    exact ⟨(e.Key, e), ⟨e, he, rfl⟩, hk.symm⟩

theorem store_keyIndex (acc : List fieldInfo) (info : fieldInfo)
    (h : info.Key ∉ acc.map fieldInfo.Key) :
    (keyIndex acc).store info.Key info = keyIndex (acc ++ [info]) := by
  have hf : ((acc.map (fun e => (e.Key, e))).reverse).filter (fun e => e.1 != info.Key)
      = (acc.map (fun e => (e.Key, e))).reverse := by
    rw [List.filter_eq_self]
    intro a ha
    simp only [List.mem_reverse, List.mem_map] at ha
    obtain ⟨e, he, rfl⟩ := ha
    simp only [bne_iff_ne, ne_eq]
    intro hk
    exact h (List.mem_map.mpr ⟨e, he, hk⟩)
  simp [GoMap.store, keyIndex, hf]

theorem len_keyIndex (acc : List fieldInfo) : (keyIndex acc).len = acc.length := by
  simp [GoMap.len, keyIndex]

/-! ## The loop of `getStructFields` and the loop over the visible fields -/

theorem visibleFrom_cons_private (i : Nat) (f : StructField) (fs : List StructField)
    (h : f.PkgPath ≠ "") : visibleFrom i (f :: fs) = visibleFrom (i + 1) fs := by
  simp [visibleFrom, List.enumFrom, List.filter, h]

theorem visibleFrom_cons_visible (i : Nat) (f : StructField) (fs : List StructField)
    (h : f.PkgPath = "") : visibleFrom i (f :: fs) = (i, f) :: visibleFrom (i + 1) fs := by
  simp [visibleFrom, List.enumFrom, List.filter, h]

/-- The loop of lines 86-119, started in a state that holds the descriptors `acc` and
has room for `k` more, does what `collect` does on the visible fields; the indexed write
stays in bounds. -/
theorem fieldLoop_eq_collect (T : String → String) (ts : String) (fs : List StructField) :
    ∀ (i : Nat) (acc : List fieldInfo) (k : Nat), (visibleFrom i fs).length ≤ k →
      fieldLoop T ts fs i (keyIndex acc) (acc ++ List.replicate k fieldInfo.zero) =
        match collect T ts (visibleFrom i fs) acc with
        | .ok acc2 =>
          .ok (keyIndex acc2,
            acc2 ++ List.replicate (k + acc.length - acc2.length) fieldInfo.zero)
        | .error msg => .error msg
        | .panic v => .panic v := by
  induction fs with
  | nil =>
    intro i acc k _
    simp [fieldLoop, visibleFrom, collect]
  | cons f rest ih =>
    intro i acc k hk
    by_cases hp : f.PkgPath = ""
    · rw [visibleFrom_cons_visible i f rest hp] at hk ⊢
      simp only [List.length_cons] at hk
      simp only [fieldLoop, hp, ne_eq, not_true_eq_false, if_false, collect]
      cases hmk : makeInfo T f i with
      | panic v => rfl
      | error msg => rfl
      | ok info =>
        simp only []
        by_cases hdup : info.Key ∈ acc.map fieldInfo.Key
        · have h1 : ((keyIndex acc).lookup info.Key).isSome = true :=
            (lookup_keyIndex_isSome acc info.Key).mpr hdup
          simp only [h1, if_true, hdup]
        · have h1 : ¬ ((keyIndex acc).lookup info.Key).isSome = true :=
            fun h => hdup ((lookup_keyIndex_isSome acc info.Key).mp h)
          have h2 : (keyIndex acc).len < (acc ++ List.replicate k fieldInfo.zero).length := by
            simp only [len_keyIndex, List.length_append, List.length_replicate]
            omega
          have h3 : (acc ++ List.replicate k fieldInfo.zero).set (keyIndex acc).len info
              = (acc ++ [info]) ++ List.replicate (k - 1) fieldInfo.zero := by
            obtain ⟨k2, rfl⟩ : ∃ k2, k = k2 + 1 := ⟨k - 1, by omega⟩
            rw [len_keyIndex, List.set_append_right _ _ (Nat.le_refl _)]
            simp [List.replicate_succ]
          simp only [h1, if_false, h2, if_true, hdup, h3, store_keyIndex acc info hdup]
          rw [ih (i + 1) (acc ++ [info]) (k - 1) (by omega)]
          cases hcol : collect T ts (visibleFrom (i + 1) rest) (acc ++ [info]) with
          | panic v => rfl
          | error msg => rfl
          | ok acc2 =>
            simp only [List.length_append, List.length_singleton]
            have : k - 1 + (acc.length + 1) - acc2.length = k + acc.length - acc2.length := by
              omega
            rw [this]
            simp
    · rw [visibleFrom_cons_private i f rest hp] at hk ⊢
      simp only [fieldLoop, hp, ne_eq, not_false_eq_true, if_true]
      exact ih (i + 1) acc k hk

/-- The cache-free computation of lines 83-121 in terms of `collect`. -/
theorem buildFields_eq (T : String → String) (st : StructType) :
    buildFields T st =
      match collect T st.String (visibleFields st) [] with
      | .ok acc => .ok ⟨keyIndex acc, acc⟩
      | .error msg => .error msg
      | .panic v => .panic v := by
  have hlen : (visibleFrom 0 st.Fields).length ≤ st.NumField := by
    simp only [visibleFrom, StructType.NumField]
    exact (List.length_filter_le _ _).trans (by simp)
  have h := fieldLoop_eq_collect T st.String st.Fields 0 [] st.NumField hlen
  have hv : visibleFrom 0 st.Fields = visibleFields st := rfl
  have he : keyIndex [] = GoMap.empty := rfl
  simp only [List.nil_append, hv, he] at h
  simp only [buildFields, h]
  cases hcol : collect T st.String (visibleFields st) [] with
  | panic v => rfl
  | error msg => rfl
  | ok acc =>
    simp only [len_keyIndex, List.take_left]

/-! ## The loop over the visible fields, case by case -/

theorem collect_cons (T : String → String) (ts : String) (p : Nat × StructField)
    (rest : List (Nat × StructField)) (acc : List fieldInfo) :
    collect T ts (p :: rest) acc =
      match badFlag p.2.Tag with
      | some c => .panic (.str ("Unsupported field flag: " ++ String.singleton c))
      | none =>
        if specKey T p.2 ∈ acc.map fieldInfo.Key then
          .error ("Duplicated key '" ++ specKey T p.2 ++ "' in struct " ++ ts)
        else collect T ts rest (acc ++ [specInfo T p]) := by
  rw [collect, makeInfo_eq]
  cases badFlag p.2.Tag with
  | some c => rfl
  | none => rfl

theorem clean_nil (T : String → String) (acc : List fieldInfo) : Clean T [] acc := by
  simp [Clean, specKeys]

theorem clean_cons_iff (T : String → String) (p : Nat × StructField)
    (pre : List (Nat × StructField)) (acc : List fieldInfo) :
    Clean T (p :: pre) acc ↔
      badFlag p.2.Tag = none ∧ specKey T p.2 ∉ acc.map fieldInfo.Key ∧
        Clean T pre (acc ++ [specInfo T p]) := by
  simp only [Clean, specKeys, List.mem_cons, forall_eq_or_imp, List.map_cons, List.nodup_cons,
    List.map_append, List.mem_append, List.mem_singleton, specInfo, List.map_nil, not_or,
    List.not_mem_nil, not_false_eq_true, and_true]
  constructor
  · rintro ⟨⟨h1, h2⟩, ⟨h3, h4⟩, h5, h6⟩
    refine ⟨h1, h5, h2, h4, fun k hk => ⟨h6 k hk, ?_⟩⟩
    rintro rfl
    exact h3 hk
  · rintro ⟨h1, h5, h2, h4, h6⟩
    refine ⟨⟨h1, h2⟩, ⟨?_, h4⟩, h5, fun k hk => (h6 k hk).1⟩
    intro hk
    exact (h6 _ hk).2 rfl

/-- A clean prefix is run through: the loop continues after it with its descriptors
stored. -/
theorem collect_clean_run (T : String → String) (ts : String) (pre : List (Nat × StructField)) :
    ∀ (rest : List (Nat × StructField)) (acc : List fieldInfo), Clean T pre acc →
      collect T ts (pre ++ rest) acc = collect T ts rest (acc ++ pre.map (specInfo T)) := by
  induction pre with
  | nil => intro rest acc _; simp
  | cons p pre ih =>
    intro rest acc h
    obtain ⟨h1, h2, h3⟩ := (clean_cons_iff T p pre acc).mp h
    rw [List.cons_append, collect_cons, h1]
    simp only [h2, if_false]
    rw [ih rest _ h3]
    simp

/-- The three ways the loop over the visible fields ends. -/
theorem collect_cases (T : String → String) (ts : String) (vis : List (Nat × StructField)) :
    ∀ acc : List fieldInfo,
      (Clean T vis acc ∧ collect T ts vis acc = .ok (acc ++ vis.map (specInfo T))) ∨
      (∃ pre p post c, vis = pre ++ p :: post ∧ Clean T pre acc ∧ badFlag p.2.Tag = some c ∧
        collect T ts vis acc =
          .panic (.str ("Unsupported field flag: " ++ String.singleton c))) ∨
      (∃ pre p post, vis = pre ++ p :: post ∧ Clean T pre acc ∧ badFlag p.2.Tag = none ∧
        (specKey T p.2 ∈ acc.map fieldInfo.Key ∨ specKey T p.2 ∈ specKeys T pre) ∧
        collect T ts vis acc =
          .error ("Duplicated key '" ++ specKey T p.2 ++ "' in struct " ++ ts)) := by
  induction vis with
  | nil =>
    intro acc
    exact Or.inl ⟨clean_nil T acc, by simp [collect]⟩
  | cons p rest ih =>
    intro acc
    cases hb : badFlag p.2.Tag with
    | some c =>
      refine Or.inr (Or.inl ⟨[], p, rest, c, rfl, clean_nil T acc, hb, ?_⟩)
      rw [collect_cons, hb]
    | none =>
      by_cases hk : specKey T p.2 ∈ acc.map fieldInfo.Key
      · refine Or.inr (Or.inr ⟨[], p, rest, rfl, clean_nil T acc, hb, Or.inl hk, ?_⟩)
        rw [collect_cons, hb]
        simp only [hk, if_true]
      · have hstep : collect T ts (p :: rest) acc
            = collect T ts rest (acc ++ [specInfo T p]) := by
          rw [collect_cons, hb]
          simp only [hk, if_false]
        rcases ih (acc ++ [specInfo T p]) with ⟨hc, hr⟩ | ⟨pre, q, post, c, hv, hc, hq, hr⟩ |
          ⟨pre, q, post, hv, hc, hq, hmem, hr⟩
        · refine Or.inl ⟨(clean_cons_iff T p rest acc).mpr ⟨hb, hk, hc⟩, ?_⟩
          rw [hstep, hr]
          simp
        · refine Or.inr (Or.inl ⟨p :: pre, q, post, c, by simp [hv],
            (clean_cons_iff T p pre acc).mpr ⟨hb, hk, hc⟩, hq, ?_⟩)
          rw [hstep, hr]
        · refine Or.inr (Or.inr ⟨p :: pre, q, post, by simp [hv],
            (clean_cons_iff T p pre acc).mpr ⟨hb, hk, hc⟩, hq, ?_, ?_⟩)
          · simp only [List.map_append, List.mem_append, List.map_cons, List.map_nil,
              List.mem_singleton, specInfo] at hmem
            simp only [specKeys, List.map_cons, List.mem_cons]
            rcases hmem with (h | h) | h
            · exact Or.inl h
            · exact Or.inr (Or.inl h)
            · exact Or.inr (Or.inr h)
          · rw [hstep, hr]

/-! ## getStructFields on a type that is not in the cache -/

theorem getStructFields_miss (T : String → String) (st : StructType)
    (cache : GoMap structFields) (hmiss : cache.lookup (st.PkgPath ++ "." ++ st.Name) = none) :
    (getStructFields T st cache).1 = buildFields T st := by
  simp only [getStructFields, hmiss]
  cases buildFields T st with
  | ok fields => by_cases h : st.PkgPath ++ "." ++ st.Name = "." <;> simp [h]
  | error msg => rfl
  | panic v => rfl

theorem clean_nil_acc (T : String → String) (pre : List (Nat × StructField)) :
    Clean T pre [] ↔
      (∀ p ∈ pre, ∀ c ∈ flagText p.2.Tag, c = 'c') ∧ (specKeys T pre).Nodup := by
  simp [Clean, badFlag]

/-- The three ways the cache-free computation ends. -/
theorem buildFields_cases (T : String → String) (st : StructType) :
    (Clean T (visibleFields st) [] ∧
      buildFields T st = .ok ⟨keyIndex ((visibleFields st).map (specInfo T)),
        (visibleFields st).map (specInfo T)⟩) ∨
    (∃ pre p post c, visibleFields st = pre ++ p :: post ∧ Clean T pre [] ∧
      badFlag p.2.Tag = some c ∧
      buildFields T st = .panic (.str ("Unsupported field flag: " ++ String.singleton c))) ∨
    (∃ pre p post, visibleFields st = pre ++ p :: post ∧ Clean T pre [] ∧
      badFlag p.2.Tag = none ∧ specKey T p.2 ∈ specKeys T pre ∧
      buildFields T st =
        .error ("Duplicated key '" ++ specKey T p.2 ++ "' in struct " ++ st.String)) := by
  rw [buildFields_eq]
  rcases collect_cases T st.String (visibleFields st) [] with ⟨hc, hr⟩ |
    ⟨pre, p, post, c, hv, hc, hp, hr⟩ | ⟨pre, p, post, hv, hc, hp, hmem, hr⟩
  · exact Or.inl ⟨hc, by rw [hr]; rfl⟩
  · exact Or.inr (Or.inl ⟨pre, p, post, c, hv, hc, hp, by rw [hr]⟩)
  · refine Or.inr (Or.inr ⟨pre, p, post, hv, hc, hp, ?_, by rw [hr]⟩)
    simpa using hmem

theorem specKeys_split_not_nodup (T : String → String) (pre post : List (Nat × StructField))
    (p : Nat × StructField) (h : specKey T p.2 ∈ specKeys T pre) :
    ¬ (specKeys T (pre ++ p :: post)).Nodup := by
  intro hn
  simp only [specKeys, List.map_append, List.map_cons] at hn h
  have := (List.nodup_append.mp hn).2.2
  exact this h (List.mem_cons_self _ _)

theorem buildFields_ok (T : String → String) (st : StructType) (sf : structFields)
    (hok : buildFields T st = .ok sf) :
    Clean T (visibleFields st) [] ∧
      sf = ⟨keyIndex ((visibleFields st).map (specInfo T)), (visibleFields st).map (specInfo T)⟩ := by
  rcases buildFields_cases T st with ⟨hc, hr⟩ | ⟨pre, p, post, c, hv, hc, hp, hr⟩ |
    ⟨pre, p, post, hv, hc, hp, hmem, hr⟩
  · rw [hr] at hok
    injection hok with hok
    exact ⟨hc, hok.symm⟩
  · rw [hr] at hok
    cases hok
  · rw [hr] at hok
    cases hok

theorem mem_visibleFields (st : StructType) (i : Nat) (f : StructField) :
    (i, f) ∈ visibleFields st ↔ st.Fields[i]? = some f ∧ f.PkgPath = "" := by
  simp [visibleFields, List.mk_mem_enum_iff_getElem?]

theorem visibleFields_fst_pairwise (st : StructType) :
    ((visibleFields st).map Prod.fst).Pairwise (fun a b => a < b) := by
  have hsub : ((visibleFields st).map Prod.fst).Sublist (st.Fields.enum.map Prod.fst) :=
    (List.filter_sublist _).map Prod.fst
  rw [List.enum_map_fst] at hsub
  exact (List.pairwise_lt_range _).sublist hsub

theorem visibleFields_map_snd (st : StructType) :
    (visibleFields st).map Prod.snd = st.Fields.filter (fun f => f.PkgPath = "") := by
  unfold visibleFields
  conv_rhs => rw [← List.enum_map_snd st.Fields]
  rw [List.filter_map]
  rfl

/-- The loop does not read the name or the tag of a private field. -/
theorem fieldLoop_private_irrelevant (T : String → String) (ts : String)
    (fs gs : List StructField)
    (h : List.Forall₂ (fun f g => f.PkgPath = g.PkgPath ∧ (f.PkgPath = "" → f = g)) fs gs) :
    ∀ (i : Nat) (m : GoMap fieldInfo) (l : List fieldInfo),
      fieldLoop T ts fs i m l = fieldLoop T ts gs i m l := by
  induction h with
  | nil => intro i m l; rfl
  | @cons f g fs gs hfg _ ih =>
    intro i m l
    by_cases hp : f.PkgPath = ""
    · have : f = g := hfg.2 hp
      subst this
      simp only [fieldLoop, ih]
    · have hg : g.PkgPath ≠ "" := fun e => hp (hfg.1.trans e)
      simp only [fieldLoop, hp, hg, ne_eq, not_false_eq_true, if_true, ih]

theorem makeInfo_ok (T : String → String) (f : StructField) (i : Nat) (info : fieldInfo)
    (h : makeInfo T f i = .ok info) : badFlag f.Tag = none ∧ info = specInfo T (i, f) := by
  rw [makeInfo_eq] at h
  cases hb : badFlag f.Tag with
  | some c => rw [hb] at h; cases h
  | none =>
    rw [hb] at h
    injection h with h
    exact ⟨rfl, h.symm⟩

/-- Every entry of a list built successfully is the descriptor of a visible field. -/
theorem buildFields_entry (T : String → String) (st : StructType) (sf : structFields)
    (hok : buildFields T st = .ok sf) (e : fieldInfo) (he : e ∈ sf.List) :
    ∃ f, st.Fields[e.Num]? = some f ∧ f.PkgPath = "" ∧ badFlag f.Tag = none ∧
      e = specInfo T (e.Num, f) := by
  obtain ⟨hc, rfl⟩ := buildFields_ok T st sf hok
  simp only [List.mem_map] at he
  obtain ⟨⟨i, f⟩, hp, rfl⟩ := he
  obtain ⟨h1, h2⟩ := (mem_visibleFields st i f).mp hp
  exact ⟨f, h1, h2, hc.1 _ hp, rfl⟩

theorem badFlag_eq_some_iff (tag : String) (c : Char) :
    badFlag tag = some c ↔
      ∃ a b, flagText tag = a ++ c :: b ∧ (∀ x ∈ a, x = 'c') ∧ c ≠ 'c' := by
  simp only [badFlag, List.find?_eq_some, decide_eq_true_eq, Bool.not_eq_true', decide_eq_false_iff_not,
    ne_eq, not_not]
  constructor
  · rintro ⟨hc, a, b, hab, ha⟩
    exact ⟨a, b, hab, ha, hc⟩
  · rintro ⟨a, b, hab, ha, hc⟩
    exact ⟨hc, a, b, hab, ha⟩

theorem lookup_of_nodup (l : List fieldInfo) (e : fieldInfo)
    (hn : (l.map fieldInfo.Key).Nodup) (he : e ∈ l) :
    List.lookup e.Key (l.map (fun x => (x.Key, x))) = some e := by
  induction l with
  | nil => cases he
  | cons x xs ih =>
    simp only [List.map_cons, List.nodup_cons] at hn
    rcases List.mem_cons.mp he with rfl | hxs
    · simp
    · have hne : (e.Key == x.Key) = false := by
        simp only [beq_eq_false_iff_ne, ne_eq]
        intro h
        exact hn.1 (h ▸ List.mem_map_of_mem fieldInfo.Key hxs)
      simp only [List.map_cons, List.lookup, hne]
      exact ih hn.2 hxs

theorem lookup_keyIndex_of_nodup (l : List fieldInfo) (e : fieldInfo)
    (hn : (l.map fieldInfo.Key).Nodup) (he : e ∈ l) :
    (keyIndex l).lookup e.Key = some e := by
  have h := lookup_of_nodup l.reverse e (by simpa [List.map_reverse] using hn)
    (List.mem_reverse.mpr he)
  simpa [GoMap.lookup, keyIndex, List.map_reverse] using h

theorem mem_keyIndex_entries (l : List fieldInfo) (p : String × fieldInfo)
    (hp : p ∈ (keyIndex l).entries) : p.2 ∈ l ∧ p.1 = p.2.Key := by
  simp only [keyIndex, List.mem_reverse, List.mem_map] at hp
  obtain ⟨e, he, rfl⟩ := hp
  exact ⟨he, rfl⟩

theorem lookup_mem_entries {V : Type} (m : GoMap V) (k : String) (v : V)
    (h : m.lookup k = some v) : (k, v) ∈ m.entries := by
  obtain ⟨l1, l2, hl, _⟩ := List.lookup_eq_some_iff.mp h
  rw [hl]
  simp

theorem getStructFields_hit (T : String → String) (st : StructType)
    (cache : GoMap structFields) (sf : structFields)
    (hhit : cache.lookup (st.PkgPath ++ "." ++ st.Name) = some sf) :
    getStructFields T st cache = (.ok sf, cache) := by
  simp only [getStructFields, hhit]

/-- The cache after a call: the cache before it, or that cache with one binding stored
under a full name other than `.`. -/
theorem getStructFields_cache (T : String → String) (st : StructType)
    (cache : GoMap structFields) :
    (getStructFields T st cache).2 = cache ∨
      ∃ sf, st.PkgPath ++ "." ++ st.Name ≠ "." ∧
        cache.lookup (st.PkgPath ++ "." ++ st.Name) = none ∧
        (getStructFields T st cache).1 = .ok sf ∧
        (getStructFields T st cache).2 = cache.store (st.PkgPath ++ "." ++ st.Name) sf := by
  cases hl : cache.lookup (st.PkgPath ++ "." ++ st.Name) with
  | some sf => exact Or.inl (by rw [getStructFields_hit T st cache sf hl])
  | none =>
    simp only [getStructFields, hl]
    cases buildFields T st with
    | ok fields =>
      by_cases h : st.PkgPath ++ "." ++ st.Name = "."
      · exact Or.inl (by simp [h])
      · exact Or.inr ⟨fields, h, trivial, by simp [h], by simp [h]⟩
    | error msg => exact Or.inl rfl
    | panic v => exact Or.inl rfl

theorem reachable_no_anonymous (T : String → String) (cache : GoMap structFields)
    (h : Reachable T cache) : cache.lookup "." = none := by
  induction h with
  | start => rfl
  | call st c _ ih =>
    rcases getStructFields_cache T st c with h | ⟨sf, hne, _, _, h⟩
    · rw [h]
      exact ih
    · rw [h, GoMap.lookup_store_ne c _ "." sf (fun e => hne e.symm)]
      exact ih

theorem utf8ByteSize_go_eq_zero (l : List Char) : String.utf8ByteSize.go l = 0 ↔ l = [] := by
  cases l with
  | nil => simp [String.utf8ByteSize.go]
  | cons c cs =>
    have := c.utf8Size_pos
    simp only [String.utf8ByteSize.go, reduceCtorEq, iff_false]
    omega

/-! ## The claims -/

/-- C1: for a struct type that is not in the cache and whose visible fields carry only
the flag `c`, `getStructFields` returns an error exactly when two visible fields derive
the same key, and the message is `Duplicated key '<k>' in struct <type string>` for the
key `k` of the first visible field, in declaration order, that repeats the key of an
earlier visible field. -/
theorem getStructFields_error_iff_duplicate (T : String → String) (st : StructType)
    (cache : GoMap structFields)
    (hmiss : cache.lookup (st.PkgPath ++ "." ++ st.Name) = none)
    (hflags : ∀ p ∈ visibleFields st, ∀ c ∈ flagText p.2.Tag, c = 'c') :
    ((∃ msg, (getStructFields T st cache).1 = .error msg) ↔
        ¬ (specKeys T (visibleFields st)).Nodup) ∧
      ∀ msg, (getStructFields T st cache).1 = .error msg →
        ∃ pre p post, visibleFields st = pre ++ p :: post ∧ (specKeys T pre).Nodup ∧
          specKey T p.2 ∈ specKeys T pre ∧
          msg = "Duplicated key '" ++ specKey T p.2 ++ "' in struct " ++ st.String := by
  rw [getStructFields_miss T st cache hmiss]
  have hgood : ∀ p ∈ visibleFields st, badFlag p.2.Tag = none := by
    intro p hp
    simpa [badFlag] using hflags p hp
  rcases buildFields_cases T st with ⟨hc, hr⟩ | ⟨pre, p, post, c, hv, hc, hp, hr⟩ |
    ⟨pre, p, post, hv, hc, hp, hmem, hr⟩
  · have hn := ((clean_nil_acc T _).mp hc).2
    rw [hr]
    refine ⟨⟨?_, fun h => absurd hn h⟩, ?_⟩
    · rintro ⟨msg, h⟩
      cases h
    · intro msg h
      cases h
  · have := hgood p (by rw [hv]; simp)
    rw [this] at hp
    cases hp
  · rw [hr]
    refine ⟨⟨fun _ => ?_, fun _ => ⟨_, rfl⟩⟩, ?_⟩
    · rw [hv]
      exact specKeys_split_not_nodup T pre post p hmem
    · intro msg h
      injection h with h
      exact ⟨pre, p, post, hv, ((clean_nil_acc T _).mp hc).2, hmem, h.symm⟩

/-- Witness of C1 on `dupType`: the hypotheses hold and the call returns an error. -/
theorem getStructFields_error_iff_duplicate_witness :
    (GoMap.empty : GoMap structFields).lookup (dupType.PkgPath ++ "." ++ dupType.Name) = none ∧
      (∀ p ∈ visibleFields dupType, ∀ c ∈ flagText p.2.Tag, c = 'c') ∧
      ∃ msg, (getStructFields asciiLower dupType GoMap.empty).1 = .error msg :=
  ⟨by decide, by decide,
    (getStructFields_error_iff_duplicate asciiLower dupType GoMap.empty (by decide)
      (by decide)).1.mpr (by decide)⟩

/-- C2: when `getStructFields` does not succeed it ends with an error or a panic, the
cache is what it was before the call, and a later call on the same type from the
resulting state ends in the same way. -/
theorem getStructFields_failure_keeps_cache (T : String → String) (st : StructType)
    (cache : GoMap structFields)
    (hfail : ∀ sf, (getStructFields T st cache).1 ≠ .ok sf) :
    (getStructFields T st cache).2 = cache ∧
      getStructFields T st (getStructFields T st cache).2 = getStructFields T st cache ∧
      ((∃ msg, (getStructFields T st cache).1 = .error msg) ∨
        ∃ v, (getStructFields T st cache).1 = .panic v) := by
  have h2 : (getStructFields T st cache).2 = cache := by
    revert hfail
    simp only [getStructFields]
    cases cache.lookup (st.PkgPath ++ "." ++ st.Name) with
    | some fields => intro _; rfl
    | none =>
      cases buildFields T st with
      | ok fields =>
        intro hfail
        exfalso
        by_cases h : st.PkgPath ++ "." ++ st.Name = "." <;> simp [h] at hfail
      | error msg => intro _; rfl
      | panic v => intro _; rfl
  refine ⟨h2, by rw [h2], ?_⟩
  cases h : (getStructFields T st cache).1 with
  | ok sf => exact absurd h (hfail sf)
  | error msg => exact Or.inl ⟨msg, rfl⟩
  | panic v => exact Or.inr ⟨v, rfl⟩

/-- Witness of C2 on `dupType` and the empty cache. -/
theorem getStructFields_failure_keeps_cache_witness :
    (getStructFields asciiLower dupType GoMap.empty).2 = GoMap.empty ∧
      getStructFields asciiLower dupType (getStructFields asciiLower dupType GoMap.empty).2
        = getStructFields asciiLower dupType GoMap.empty :=
  have h := getStructFields_failure_keeps_cache asciiLower dupType GoMap.empty
    (fun sf => by
      have he : (getStructFields asciiLower dupType GoMap.empty).1
          = .error "Duplicated key 'k' in struct main.T" := by decide
      rw [he]
      exact fun h => Outcome.noConfusion h)
  ⟨h.1, h.2.1⟩

/-- C3: on a struct type that is not in the cache and on which `getStructFields`
succeeds, the `Num` values of `List` are exactly the indices of the visible fields
(`PkgPath == ""`), strictly increasing, and `len(List)` is the number of visible fields;
and the outcome of the call does not depend on the name or tag of any private field. -/
theorem getStructFields_list_visible (T : String → String) (st : StructType)
    (cache : GoMap structFields) (sf : structFields)
    (hmiss : cache.lookup (st.PkgPath ++ "." ++ st.Name) = none)
    (hok : (getStructFields T st cache).1 = .ok sf) :
    (∀ i, i ∈ sf.List.map fieldInfo.Num ↔ ∃ f, st.Fields[i]? = some f ∧ f.PkgPath = "") ∧
      (sf.List.map fieldInfo.Num).Pairwise (fun a b => a < b) ∧
      sf.List.length = (st.Fields.filter (fun f => f.PkgPath = "")).length ∧
      ∀ st2 : StructType, st2.PkgPath = st.PkgPath → st2.Name = st.Name →
        st2.String = st.String →
        List.Forall₂ (fun f g => f.PkgPath = g.PkgPath ∧ (f.PkgPath = "" → f = g))
          st.Fields st2.Fields →
        getStructFields T st2 cache = getStructFields T st cache := by
  rw [getStructFields_miss T st cache hmiss] at hok
  obtain ⟨_, rfl⟩ := buildFields_ok T st sf hok
  have hnum : ((visibleFields st).map (specInfo T)).map fieldInfo.Num
      = (visibleFields st).map Prod.fst := by
    simp [specInfo, Function.comp_def]
  refine ⟨?_, ?_, ?_, ?_⟩
  · intro i
    simp only [hnum, List.mem_map]
    constructor
    · rintro ⟨⟨j, f⟩, hp, rfl⟩
      exact ⟨f, (mem_visibleFields st j f).mp hp⟩
    · rintro ⟨f, hf⟩
      exact ⟨(i, f), (mem_visibleFields st i f).mpr hf, rfl⟩
  · simp only [hnum]
    exact visibleFields_fst_pairwise st
  · simp only [List.length_map]
    rw [← visibleFields_map_snd, List.length_map]
  · intro st2 hp hn hs hf
    have hb : buildFields T st2 = buildFields T st := by
      simp only [buildFields, StructType.NumField, hs, ← hf.length_eq]
      rw [fieldLoop_private_irrelevant T st.String st.Fields st2.Fields hf]
    simp only [getStructFields, hp, hn, hb]

/-- Witness of C3 on `goodType`, whose visible fields have the indices 0, 1 and 3. -/
theorem getStructFields_list_visible_witness :
    (getStructFields asciiLower goodType GoMap.empty).1 = .ok goodFields ∧
      (goodFields.List.map fieldInfo.Num).Pairwise (fun a b => a < b) ∧
      goodFields.List.length = (goodType.Fields.filter (fun f => f.PkgPath = "")).length :=
  have h := getStructFields_list_visible asciiLower goodType GoMap.empty goodFields
    (by decide) (by decide)
  ⟨by decide, h.2.1, h.2.2.1⟩

/-- C4: every descriptor `getStructFields` computes for a visible field `f` has the key
`t` when `t` is non-empty and `strings.ToLower(f.Name)` when `t` is empty, where `t` is
`f.Tag` with everything from its last `/` onwards removed (`f.Tag` itself when it has no
`/`).  A tag `/c` gives the lowercased name, a tag `a/b/c` the key `a/b`. -/
theorem getStructFields_key (T : String → String) (st : StructType)
    (cache : GoMap structFields) (sf : structFields)
    (hmiss : cache.lookup (st.PkgPath ++ "." ++ st.Name) = none)
    (hok : (getStructFields T st cache).1 = .ok sf) :
    (∀ e ∈ sf.List, ∃ f, st.Fields[e.Num]? = some f ∧ f.PkgPath = "" ∧
        e.Key = if tagName f.Tag ≠ "" then tagName f.Tag else T f.Name) ∧
      (∀ f i info, makeInfo T f i = .ok info →
        info.Key = if tagName f.Tag ≠ "" then tagName f.Tag else T f.Name) ∧
      (∀ (tag : String) (t r : List Char), tag.data = t ++ '/' :: r → '/' ∉ r →
        tagName tag = ⟨t⟩) ∧
      (∀ tag : String, '/' ∉ tag.data → tagName tag = tag) ∧
      (∀ name i, makeInfo T ⟨name, "", "/c"⟩ i = .ok ⟨T name, i, true⟩) ∧
      (∀ name i, makeInfo T ⟨name, "", "a/b/c"⟩ i = .ok ⟨"a/b", i, true⟩) := by
  rw [getStructFields_miss T st cache hmiss] at hok
  refine ⟨?_, ?_, tagName_split, tagName_no_slash, ?_, ?_⟩
  · intro e he
    obtain ⟨f, h1, h2, _, h4⟩ := buildFields_entry T st sf hok e he
    refine ⟨f, h1, h2, ?_⟩
    rw [h4]
    rfl
  · intro f i info h
    rw [(makeInfo_ok T f i info h).2]
    rfl
  · intro name i
    rfl
  · intro name i
    rfl

/-- Witness of C4 on `goodType`: the keys are `x`, `y` and, for the tag `/`, `foo`. -/
theorem getStructFields_key_witness :
    (getStructFields asciiLower goodType GoMap.empty).1 = .ok goodFields ∧
      ∀ e ∈ goodFields.List, ∃ f, goodType.Fields[e.Num]? = some f ∧ f.PkgPath = "" ∧
        e.Key = if tagName f.Tag ≠ "" then tagName f.Tag else asciiLower f.Name :=
  ⟨by decide,
    (getStructFields_key asciiLower goodType GoMap.empty goodFields (by decide) (by decide)).1⟩

/-- C5: every descriptor `getStructFields` computes for a visible field `f` has
`Conditional` true exactly when `f.Tag` contains a `/` and the text after its last `/` is
non-empty, and that text then consists of `c` characters only; a tag with no `/`, or
ending in `/`, gives `Conditional = false`. -/
theorem getStructFields_conditional (T : String → String) (st : StructType)
    (cache : GoMap structFields) (sf : structFields)
    (hmiss : cache.lookup (st.PkgPath ++ "." ++ st.Name) = none)
    (hok : (getStructFields T st cache).1 = .ok sf) :
    (∀ e ∈ sf.List, ∃ f, st.Fields[e.Num]? = some f ∧ f.PkgPath = "" ∧
        (e.Conditional = true ↔ '/' ∈ f.Tag.data ∧ flagText f.Tag ≠ []) ∧
        ∀ c ∈ flagText f.Tag, c = 'c') ∧
      (∀ f i info, makeInfo T f i = .ok info →
        (info.Conditional = true ↔ '/' ∈ f.Tag.data ∧ flagText f.Tag ≠ []) ∧
        ∀ c ∈ flagText f.Tag, c = 'c') ∧
      (∀ (tag : String) (t r : List Char), tag.data = t ++ '/' :: r → '/' ∉ r →
        flagText tag = r) ∧
      (∀ f i info, makeInfo T f i = .ok info → '/' ∉ f.Tag.data →
        info.Conditional = false) ∧
      (∀ f i info (t : List Char), makeInfo T f i = .ok info → f.Tag.data = t ++ ['/'] →
        info.Conditional = false) := by
  rw [getStructFields_miss T st cache hmiss] at hok
  have key : ∀ f : StructField, badFlag f.Tag = none → ∀ i,
      ((specInfo T (i, f)).Conditional = true ↔ '/' ∈ f.Tag.data ∧ flagText f.Tag ≠ []) ∧
        ∀ c ∈ flagText f.Tag, c = 'c' := by
    intro f hb i
    refine ⟨?_, by simpa [badFlag] using hb⟩
    by_cases hmem : '/' ∈ f.Tag.data
    · simp [specInfo, hmem, List.isEmpty_iff]
    · simp [specInfo, hmem, flagText_no_slash _ hmem]
  refine ⟨?_, ?_, flagText_split, ?_, ?_⟩
  · intro e he
    obtain ⟨f, h1, h2, h3, h4⟩ := buildFields_entry T st sf hok e he
    refine ⟨f, h1, h2, ?_⟩
    rw [h4]
    exact key f h3 e.Num
  · intro f i info h
    obtain ⟨h1, h2⟩ := makeInfo_ok T f i info h
    rw [h2]
    exact key f h1 i
  · intro f i info h hmem
    obtain ⟨_, h2⟩ := makeInfo_ok T f i info h
    rw [h2]
    simp [specInfo, flagText_no_slash _ hmem]
  · intro f i info t h ht
    obtain ⟨_, h2⟩ := makeInfo_ok T f i info h
    rw [h2]
    have := flagText_split f.Tag t [] (by simpa using ht) (by simp)
    simp [specInfo, this]

/-- Witness of C5 on `goodType`: only `Y`, tagged `y/c`, is conditional. -/
theorem getStructFields_conditional_witness :
    (getStructFields asciiLower goodType GoMap.empty).1 = .ok goodFields ∧
      ∀ e ∈ goodFields.List, ∃ f, goodType.Fields[e.Num]? = some f ∧ f.PkgPath = "" ∧
        (e.Conditional = true ↔ '/' ∈ f.Tag.data ∧ flagText f.Tag ≠ []) ∧
        ∀ c ∈ flagText f.Tag, c = 'c' :=
  ⟨by decide,
    (getStructFields_conditional asciiLower goodType GoMap.empty goodFields (by decide)
      (by decide)).1⟩

/-- C6: on a struct type that is not in the cache, `getStructFields` panics with the
string `Unsupported field flag: ` followed by the character `c` exactly when the scan of
the visible fields reaches a field `p` whose text after the last `/` has `c` as its first
character other than `c`, every visible field before `p` having passed both checks (flags
all `c`, keys pairwise distinct); the key of `p` itself plays no part.  A type with such a
visible field never makes the call return successfully. -/
theorem getStructFields_flag_panic (T : String → String) (st : StructType)
    (cache : GoMap structFields)
    (hmiss : cache.lookup (st.PkgPath ++ "." ++ st.Name) = none) :
    (∀ v, (getStructFields T st cache).1 = .panic v ↔
        ∃ pre p post c, visibleFields st = pre ++ p :: post ∧
          (∀ q ∈ pre, ∀ x ∈ flagText q.2.Tag, x = 'c') ∧ (specKeys T pre).Nodup ∧
          (∃ a b, flagText p.2.Tag = a ++ c :: b ∧ (∀ x ∈ a, x = 'c') ∧ c ≠ 'c') ∧
          v = .str ("Unsupported field flag: " ++ String.singleton c)) ∧
      ((∃ p ∈ visibleFields st, ∃ x ∈ flagText p.2.Tag, x ≠ 'c') →
        ∀ sf, (getStructFields T st cache).1 ≠ .ok sf) := by
  rw [getStructFields_miss T st cache hmiss]
  refine ⟨fun v => ⟨?_, ?_⟩, ?_⟩
  · intro hv
    rcases buildFields_cases T st with ⟨_, hr⟩ | ⟨pre, p, post, c, hvis, hc, hp, hr⟩ |
      ⟨pre, p, post, _, _, _, _, hr⟩
    · rw [hr] at hv
      cases hv
    · rw [hr] at hv
      injection hv with hv
      obtain ⟨h1, h2⟩ := (clean_nil_acc T pre).mp hc
      exact ⟨pre, p, post, c, hvis, h1, h2, (badFlag_eq_some_iff _ _).mp hp, hv.symm⟩
    · rw [hr] at hv
      cases hv
  · rintro ⟨pre, p, post, c, hvis, h1, h2, hp, rfl⟩
    have hc : Clean T pre [] := (clean_nil_acc T pre).mpr ⟨h1, h2⟩
    rw [buildFields_eq, hvis, collect_clean_run T st.String pre (p :: post) [] hc, collect_cons,
      (badFlag_eq_some_iff _ _).mpr hp]
  · rintro ⟨p, hp, x, hx, hxc⟩ sf hsf
    obtain ⟨hc, _⟩ := buildFields_ok T st sf hsf
    exact hxc (((clean_nil_acc T _).mp hc).1 p hp x hx)

/-- Witness of C6 on `flagType`: its second field has the flags `cx` and repeats the key
of the first; the call panics on `x`. -/
theorem getStructFields_flag_panic_witness :
    (GoMap.empty : GoMap structFields).lookup (flagType.PkgPath ++ "." ++ flagType.Name)
        = none ∧
      (getStructFields asciiLower flagType GoMap.empty).1
        = .panic (.str "Unsupported field flag: x") :=
  ⟨by decide,
    ((getStructFields_flag_panic asciiLower flagType GoMap.empty (by decide)).1 _).mpr
      ⟨[(0, ⟨"A", "", "a/c"⟩)], (1, ⟨"B", "", "a/cx"⟩), [(2, ⟨"C", "", "a"⟩)], 'x',
        by decide, by decide, by decide, ⟨['c'], [], by decide, by decide, by decide⟩,
        by decide⟩⟩

/-- C7: a descriptor set that `getStructFields` builds and returns is well formed: the
keys of `List` are pairwise distinct, `len(Map) == len(List)`, `Map[e.Key] == e` for
every entry `e` of `List`, and every entry of `Map` occurs in `List` under its own key. -/
theorem getStructFields_well_formed (T : String → String) (st : StructType)
    (cache : GoMap structFields) (sf : structFields)
    (hmiss : cache.lookup (st.PkgPath ++ "." ++ st.Name) = none)
    (hok : (getStructFields T st cache).1 = .ok sf) :
    (sf.List.map fieldInfo.Key).Nodup ∧ sf.Map.len = sf.List.length ∧
      (∀ e ∈ sf.List, sf.Map.lookup e.Key = some e) ∧
      (∀ p ∈ sf.Map.entries, p.2 ∈ sf.List ∧ p.1 = p.2.Key) ∧
      (∀ k e, sf.Map.lookup k = some e → e ∈ sf.List ∧ e.Key = k) := by
  rw [getStructFields_miss T st cache hmiss] at hok
  obtain ⟨hc, rfl⟩ := buildFields_ok T st sf hok
  have hn : (((visibleFields st).map (specInfo T)).map fieldInfo.Key).Nodup := by
    have := ((clean_nil_acc T _).mp hc).2
    simpa [specKeys, specInfo, Function.comp_def] using this
  refine ⟨hn, len_keyIndex _, fun e he => lookup_keyIndex_of_nodup _ e hn he,
    fun p hp => mem_keyIndex_entries _ p hp, ?_⟩
  intro k e h
  have := mem_keyIndex_entries _ _ (lookup_mem_entries _ k e h)
  exact ⟨this.1, this.2.symm⟩

/-- Witness of C7 on `goodType`. -/
theorem getStructFields_well_formed_witness :
    (getStructFields asciiLower goodType GoMap.empty).1 = .ok goodFields ∧
      (goodFields.List.map fieldInfo.Key).Nodup ∧
      goodFields.Map.len = goodFields.List.length ∧
      ∀ e ∈ goodFields.List, goodFields.Map.lookup e.Key = some e :=
  have h := getStructFields_well_formed asciiLower goodType GoMap.empty goodFields
    (by decide) (by decide)
  ⟨by decide, h.1, h.2.1, h.2.2.1⟩

/-- C8: for a struct type whose full name differs from `.` and a cache state in which
`getStructFields` succeeds, the cache after the call maps the full name to the returned
descriptor set, and a second call from that state returns the stored set with no error
and the cache unchanged, whatever fields the type is presented with (nothing is
recomputed). -/
theorem getStructFields_second_call (T : String → String) (st : StructType)
    (cache : GoMap structFields) (sf : structFields)
    (hname : st.PkgPath ++ "." ++ st.Name ≠ ".")
    (hok : (getStructFields T st cache).1 = .ok sf) :
    (getStructFields T st cache).2.lookup (st.PkgPath ++ "." ++ st.Name) = some sf ∧
      getStructFields T st (getStructFields T st cache).2
        = (.ok sf, (getStructFields T st cache).2) ∧
      ∀ st2 : StructType, st2.PkgPath = st.PkgPath → st2.Name = st.Name →
        getStructFields T st2 (getStructFields T st cache).2
          = (.ok sf, (getStructFields T st cache).2) := by
  have hstored :
      (getStructFields T st cache).2.lookup (st.PkgPath ++ "." ++ st.Name) = some sf := by
    cases hl : cache.lookup (st.PkgPath ++ "." ++ st.Name) with
    | some sf2 =>
      rw [getStructFields_hit T st cache sf2 hl] at hok ⊢
      injection hok with hok
      rw [← hok]
      exact hl
    | none =>
      revert hok
      simp only [getStructFields, hl]
      cases buildFields T st with
      | ok fields =>
        simp only [hname, ne_eq, not_false_eq_true, if_true]
        intro hok
        injection hok with hok
        rw [← hok]
        exact GoMap.lookup_store_self _ _ _
      | error msg => intro hok; cases hok
      | panic v => intro hok; cases hok
  refine ⟨hstored, getStructFields_hit T st _ sf hstored, ?_⟩
  intro st2 hp hn
  exact getStructFields_hit T st2 _ sf (by rw [hp, hn]; exact hstored)

/-- Witness of C8 on `goodType` and the empty cache. -/
theorem getStructFields_second_call_witness :
    goodType.PkgPath ++ "." ++ goodType.Name ≠ "." ∧
      (getStructFields asciiLower goodType GoMap.empty).1 = .ok goodFields ∧
      getStructFields asciiLower goodType (getStructFields asciiLower goodType GoMap.empty).2
        = (.ok goodFields, (getStructFields asciiLower goodType GoMap.empty).2) :=
  ⟨by decide, by decide,
    (getStructFields_second_call asciiLower goodType GoMap.empty goodFields (by decide)
      (by decide)).2.1⟩

/-- C9: for a struct type with empty `PkgPath` and empty `Name`, `getStructFields` leaves
the cache as it was, whatever the outcome; in a cache state reachable from the empty
cache the key `.` is absent, so the call computes the descriptors from the fields of the
type it is given. -/
theorem getStructFields_anonymous (T : String → String) (st : StructType)
    (cache : GoMap structFields) (hpath : st.PkgPath = "") (hname : st.Name = "") :
    (getStructFields T st cache).2 = cache ∧
      (Reachable T cache →
        cache.lookup "." = none ∧ getStructFields T st cache = (buildFields T st, cache)) := by
  have hfull : st.PkgPath ++ "." ++ st.Name = "." := by
    rw [hpath, hname]
    rfl
  have h2 : (getStructFields T st cache).2 = cache := by
    rcases getStructFields_cache T st cache with h | ⟨_, hne, _⟩
    · exact h
    · exact absurd hfull hne
  refine ⟨h2, fun hr => ?_⟩
  have hnone := reachable_no_anonymous T cache hr
  refine ⟨hnone, ?_⟩
  have h1 := getStructFields_miss T st cache (by rw [hfull]; exact hnone)
  rw [← h1]
  exact Prod.ext rfl h2

/-- Witness of C9 on `anonType`, called after `goodType` has been resolved. -/
theorem getStructFields_anonymous_witness :
    anonType.PkgPath = "" ∧ anonType.Name = "" ∧
      Reachable asciiLower (getStructFields asciiLower goodType GoMap.empty).2 ∧
      getStructFields asciiLower anonType (getStructFields asciiLower goodType GoMap.empty).2
        = (buildFields asciiLower anonType,
            (getStructFields asciiLower goodType GoMap.empty).2) :=
  have hr : Reachable asciiLower (getStructFields asciiLower goodType GoMap.empty).2 :=
    Reachable.call goodType GoMap.empty Reachable.start
  ⟨rfl, rfl, hr,
    ((getStructFields_anonymous asciiLower anonType _ rfl rfl).2 hr).2⟩

/-- C10: `isZero` is a total function, and `isZero(v)` is true exactly when `v` is a
string of length 0, a nil interface value, a slice or a map of length 0 (nil included),
a signed or unsigned integer equal to 0, or the boolean false; for a struct value it is
false whatever its fields are. -/
theorem isZero_iff :
    (∀ v, isZero v = true ↔
        (∃ s : String, v = .StringValue s ∧ s.utf8ByteSize = 0) ∨
        v = .InterfaceValue none ∨
        (∃ elems, v = .SliceValue elems ∧ Value.sliceLen elems = 0) ∨
        (∃ entries, v = .MapValue entries ∧ Value.mapLen entries = 0) ∨
        v = .IntValue 0 ∨ v = .UintValue 0 ∨ v = .BoolValue false) ∧
      (∀ fields, isZero (.StructValue fields) = false) ∧
      (∀ s : String, s.utf8ByteSize = 0 ↔ s = "") ∧
      Value.sliceLen none = 0 ∧ Value.mapLen none = 0 := by
  refine ⟨?_, fun _ => rfl, ?_, rfl, rfl⟩
  · intro v
    cases v <;> simp [isZero]
  · intro s
    obtain ⟨l⟩ := s
    simp only [String.utf8ByteSize, utf8ByteSize_go_eq_zero]
    constructor
    · rintro rfl; rfl
    · intro h
      exact congrArg String.data h

/-! ## handleErr -/

/-- A panic leaves `getStructFields` only with the unsupported-flag string. -/
theorem getStructFields_panic_is_flag (T : String → String) (st : StructType)
    (cache : GoMap structFields) (v : PanicValue)
    (hp : (getStructFields T st cache).1 = .panic v) :
    ∃ c : Char, v = .str ("Unsupported field flag: " ++ String.singleton c) := by
  cases hl : cache.lookup (st.PkgPath ++ "." ++ st.Name) with
  | some sf =>
    rw [getStructFields_hit T st cache sf hl] at hp
    cases hp
  | none =>
    rw [getStructFields_miss T st cache hl] at hp
    rcases buildFields_cases T st with ⟨_, hr⟩ | ⟨_, _, _, c, _, _, _, hr⟩ |
      ⟨_, _, _, _, _, _, _, hr⟩
    · rw [hr] at hp
      cases hp
    · rw [hr] at hp
      injection hp with hp
      exact ⟨c, hp.symm⟩
    · rw [hr] at hp
      cases hp

/-- C11: `handleErr` raises the recovered panic value again, unchanged and with `*err`
untouched, exactly when the value is a `runtime.Error` or is neither a string nor an
`os.Error`; a `runtime.Error` satisfies `os.Error` too and is raised again all the same,
because its test comes first. -/
theorem handleErr_reraise (r : PanicValue) (err : Option OsError) :
    ((handleErr (some r) err).2 = some r ↔
        (r.isRuntimeError = true ∨ (r.asString = none ∧ r.asOsError = none))) ∧
      ((handleErr (some r) err).2 = some r → (handleErr (some r) err).1 = err) ∧
      ((handleErr (some r) err).2 = none ∨ (handleErr (some r) err).2 = some r) ∧
      ∀ msg, (PanicValue.runtimeError msg).asOsError = some ⟨msg, true⟩ ∧
        handleErr (some (.runtimeError msg)) err = (err, some (.runtimeError msg)) := by
  refine ⟨?_, ?_, ?_, fun msg => ⟨rfl, rfl⟩⟩ <;>
    cases r <;>
    simp [handleErr, PanicValue.isRuntimeError, PanicValue.asString, PanicValue.asOsError]

/-- C12, the claim as stated fails: when decoding panics with a nil value, `recover()`
returns nil, `handleErr` does nothing and `Unmarshal` returns nil, although decoding did
not end without a panic. -/
theorem unmarshal_nil_panic_returns_nil :
    ¬ ∀ decode : Body Unit,
      (Unmarshal decode = .returned () none ↔ decode = .completed ()) := by
  intro h
  have hc := (h (.panicked none)).mp rfl
  cases hc

/-- C12, amended: `handleErr` turns a recovered string `s` into the error with the text
`YAML error: ` followed by `s`, and a recovered `os.Error` that is not a `runtime.Error`
into `*err` itself; in both cases nothing is raised again.  When `recover()` returns nil
`*err` stays as it was, so `Unmarshal` returns nil exactly when decoding ended without a
panic or with a panic whose value is nil. -/
theorem handleErr_convert (err : Option OsError) :
    (∀ s, handleErr (some (.str s)) err
        = (some (OsError.ErrorString ("YAML error: " ++ s)), none) ∧
        (OsError.ErrorString ("YAML error: " ++ s)).text = "YAML error: " ++ s) ∧
      (∀ r e, r.isRuntimeError = false → r.asOsError = some e →
        handleErr (some r) err = (some e, none)) ∧
      handleErr none err = (err, none) ∧
      (∀ decode : Body Unit, Unmarshal decode = .returned () none ↔
        (decode = .completed () ∨ decode = .panicked none)) ∧
      (∀ decode : Body Unit, Unmarshal decode = .returned () none ↔ decode.recover = none) ∧
      Unmarshal (.completed ()) = .returned () none ∧
      Unmarshal (.panicked none) = .returned () none ∧
      (∀ out, Marshal (.completed out) = .returned out none) ∧
      Marshal (.panicked none) = .returned [] none := by
  have hun : ∀ decode : Body Unit,
      Unmarshal decode = .returned () none ↔ decode.recover = none := by
    intro decode
    cases decode with
    | completed out => simp [Unmarshal, handleErr, Body.recover]
    | panicked v =>
      cases v with
      | none => simp [Unmarshal, handleErr, Body.recover]
      | some v =>
        cases v <;>
          simp [Unmarshal, handleErr, Body.recover, PanicValue.isRuntimeError,
            PanicValue.asString, PanicValue.asOsError]
  refine ⟨fun s => ⟨rfl, rfl⟩, ?_, rfl, ?_, hun, rfl, rfl, fun out => rfl, rfl⟩
  · intro r e h1 h2
    cases r <;>
      simp_all [handleErr, PanicValue.isRuntimeError, PanicValue.asString,
        PanicValue.asOsError]
  · intro decode
    rw [hun]
    cases decode with
    | completed out => simp [Body.recover]
    | panicked v => cases v <;> simp [Body.recover]

/-- C17: the value `getStructFields` panics with is the string `Unsupported field flag: `
followed by the flag character `c`; given that value `handleErr` sets `*err` to the error
`YAML error: Unsupported field flag: ` followed by `c` and raises nothing, so `Unmarshal`
and `Marshal` return that error. -/
theorem unsupported_flag_is_returned (T : String → String) (st : StructType)
    (cache : GoMap structFields) (v : PanicValue) (err : Option OsError)
    (hp : (getStructFields T st cache).1 = .panic v) :
    ∃ c : Char, v = .str ("Unsupported field flag: " ++ String.singleton c) ∧
      handleErr (some v) err
        = (some (OsError.ErrorString
            ("YAML error: Unsupported field flag: " ++ String.singleton c)), none) ∧
      Unmarshal (.panicked (some v))
        = .returned () (some (OsError.ErrorString
            ("YAML error: Unsupported field flag: " ++ String.singleton c))) ∧
      Marshal (.panicked (some v))
        = .returned [] (some (OsError.ErrorString
            ("YAML error: Unsupported field flag: " ++ String.singleton c))) := by
  obtain ⟨c, rfl⟩ := getStructFields_panic_is_flag T st cache v hp
  have hs : "YAML error: " ++ ("Unsupported field flag: " ++ String.singleton c)
      = "YAML error: Unsupported field flag: " ++ String.singleton c := by
    rw [← String.append_assoc]
    rfl
  refine ⟨c, rfl, ?_, ?_, ?_⟩
  · simp only [handleErr, PanicValue.isRuntimeError, PanicValue.asString, hs]
    rfl
  · simp only [Unmarshal, Body.recover, handleErr, PanicValue.isRuntimeError,
      PanicValue.asString, hs]
    rfl
  · simp only [Marshal, Body.recover, handleErr, PanicValue.isRuntimeError,
      PanicValue.asString, hs]
    rfl

/-- Witness of C17 on `flagType`, which panics on the flag `x`. -/
theorem unsupported_flag_is_returned_witness :
    (getStructFields asciiLower flagType GoMap.empty).1
        = .panic (.str "Unsupported field flag: x") ∧
      ∃ c : Char, PanicValue.str "Unsupported field flag: x"
          = .str ("Unsupported field flag: " ++ String.singleton c) ∧
        handleErr (some (.str "Unsupported field flag: x")) none
          = (some (OsError.ErrorString
              ("YAML error: Unsupported field flag: " ++ String.singleton c)), none) :=
  ⟨by decide,
    match unsupported_flag_is_returned asciiLower flagType GoMap.empty
      (.str "Unsupported field flag: x") none (by decide) with
    | ⟨c, h1, h2, _⟩ => ⟨c, h1, h2⟩⟩

/-! ## The cache over several calls -/

/-- A binding of the cache survives a call unchanged. -/
theorem getStructFields_lookup_kept (T : String → String) (st : StructType)
    (cache : GoMap structFields) (k : String) (sf : structFields)
    (hk : cache.lookup k = some sf) : (getStructFields T st cache).2.lookup k = some sf := by
  rcases getStructFields_cache T st cache with h | ⟨sf2, _, hnone, _, h⟩
  · rw [h]
    exact hk
  · have hne : k ≠ st.PkgPath ++ "." ++ st.Name := by
      rintro rfl
      rw [hk] at hnone
      cases hnone
    rw [h, GoMap.lookup_store_ne cache _ k sf2 hne]
    exact hk

theorem buildFields_of_clean (T : String → String) (st : StructType)
    (hc : Clean T (visibleFields st) []) :
    buildFields T st = .ok ⟨keyIndex ((visibleFields st).map (specInfo T)),
      (visibleFields st).map (specInfo T)⟩ := by
  have h := collect_clean_run T st.String (visibleFields st) [] [] hc
  rw [List.append_nil] at h
  rw [buildFields_eq, h]
  rfl

/-- A successful result depends on the fields of the type only. -/
theorem buildFields_ok_congr (T : String → String) (a b : StructType) (sf : structFields)
    (hf : a.Fields = b.Fields) (ha : buildFields T a = .ok sf) : buildFields T b = .ok sf := by
  obtain ⟨hc, rfl⟩ := buildFields_ok T a sf ha
  have hv : visibleFields b = visibleFields a := by
    simp only [visibleFields, hf]
  rw [← hv] at hc ⊢
  exact buildFields_of_clean T b hc

/-- For names without a dot, as Go identifiers are, the full name determines the package
path and the name. -/
theorem fullName_injective (p1 n1 p2 n2 : String) (h1 : '.' ∉ n1.data) (h2 : '.' ∉ n2.data)
    (h : p1 ++ "." ++ n1 = p2 ++ "." ++ n2) : p1 = p2 ∧ n1 = n2 := by
  have hd : p1.data ++ '.' :: n1.data = p2.data ++ '.' :: n2.data := by
    have := congrArg String.data h
    simpa [String.data_append] using this
  have hl := lastIndexFrom_split '.' p1.data n1.data 0 (-1) h1
  rw [hd, lastIndexFrom_split '.' p2.data n2.data 0 (-1) h2] at hl
  have hlen : p1.data.length = p2.data.length := by
    have := Int.ofNat.inj hl
    omega
  obtain ⟨e1, e2⟩ := List.append_inj hd hlen
  injection e2 with _ e2
  exact ⟨String.ext e1, String.ext e2⟩

/-- C13: a call of `getStructFields` keeps every binding of the cache as it is, and the
only key it can add is the full name of its argument, when that was absent and the call
succeeded; so over any number of calls a stored descriptor set, and with it the `Num` of
each of its descriptors, stays what it was. -/
theorem cache_only_grows (T : String → String) (st : StructType)
    (cache : GoMap structFields) :
    (∀ k sf, cache.lookup k = some sf → (getStructFields T st cache).2.lookup k = some sf) ∧
      (∀ k, cache.lookup k = none → (getStructFields T st cache).2.lookup k ≠ none →
        k = st.PkgPath ++ "." ++ st.Name ∧
          ∃ sf, (getStructFields T st cache).1 = .ok sf ∧
            (getStructFields T st cache).2.lookup k = some sf) ∧
      ∀ cache2, ReachableVia T (fun _ => True) cache cache2 →
        ∀ k sf, cache.lookup k = some sf →
          cache2.lookup k = some sf ∧
            ∀ sf2, cache2.lookup k = some sf2 →
              sf2.List.map fieldInfo.Num = sf.List.map fieldInfo.Num := by
  refine ⟨fun k sf hk => getStructFields_lookup_kept T st cache k sf hk, ?_, ?_⟩
  · intro k hk hne
    rcases getStructFields_cache T st cache with h | ⟨sf2, _, _, hok, h⟩
    · rw [h] at hne
      exact absurd hk hne
    · by_cases hkn : k = st.PkgPath ++ "." ++ st.Name
      · refine ⟨hkn, sf2, hok, ?_⟩
        rw [h, hkn]
        exact GoMap.lookup_store_self _ _ _
      · rw [h, GoMap.lookup_store_ne cache _ k sf2 hkn] at hne
        exact absurd hk hne
  · intro cache2 hr k sf hk
    have hkept : cache2.lookup k = some sf := by
      induction hr with
      | refl => exact hk
      | call st2 c _ _ ih => exact getStructFields_lookup_kept T st2 c k sf ih
    refine ⟨hkept, fun sf2 h2 => ?_⟩
    rw [hkept] at h2
    injection h2 with h2
    rw [h2]

/-- C18: in a cache state reached from the empty cache by calls on struct types whose
full names identify their fields, `getStructFields` gives a type of that family the
outcome of the cache-free computation of lines 83-121 on that type alone, whatever was
resolved before and in whatever order. -/
theorem caching_is_transparent (T : String → String) (F : StructType → Prop)
    (cache : GoMap structFields) (st : StructType)
    (hF : ∀ a b, F a → F b →
      a.PkgPath ++ "." ++ a.Name = b.PkgPath ++ "." ++ b.Name → a.Fields = b.Fields)
    (hr : ReachableVia T F GoMap.empty cache) (hst : F st) :
    (getStructFields T st cache).1 = buildFields T st := by
  have inv : ∀ k sf, cache.lookup k = some sf →
      ∀ a, F a → a.PkgPath ++ "." ++ a.Name = k → buildFields T a = .ok sf := by
    induction hr with
    | refl =>
      intro k sf hk
      cases hk
    | call st2 c _ hst2 ih =>
      intro k sf hk a ha hak
      rcases getStructFields_cache T st2 c with h | ⟨sf2, _, hnone, hok, h⟩
      · rw [h] at hk
        exact ih k sf hk a ha hak
      · rw [h] at hk
        by_cases hkn : k = st2.PkgPath ++ "." ++ st2.Name
        · rw [hkn, GoMap.lookup_store_self] at hk
          injection hk with hk
          rw [getStructFields_miss T st2 c hnone] at hok
          rw [← hk]
          exact buildFields_ok_congr T st2 a sf2 (hF st2 a hst2 ha (hkn ▸ hak.symm)) hok
        · rw [GoMap.lookup_store_ne c _ k sf2 hkn] at hk
          exact ih k sf hk a ha hak
  cases hl : cache.lookup (st.PkgPath ++ "." ++ st.Name) with
  | some sf =>
    rw [getStructFields_hit T st cache sf hl, inv _ sf hl st hst rfl]
  | none => exact getStructFields_miss T st cache hl

/-- Witness of C18: `goodType` resolved a second time, after itself and `anonType`. -/
theorem caching_is_transparent_witness :
    ReachableVia asciiLower (fun t => t = goodType ∨ t = anonType) GoMap.empty
        (getStructFields asciiLower anonType
          (getStructFields asciiLower goodType GoMap.empty).2).2 ∧
      (getStructFields asciiLower goodType
          (getStructFields asciiLower anonType
            (getStructFields asciiLower goodType GoMap.empty).2).2).1
        = buildFields asciiLower goodType :=
  have hr : ReachableVia asciiLower (fun t => t = goodType ∨ t = anonType) GoMap.empty
      (getStructFields asciiLower anonType
        (getStructFields asciiLower goodType GoMap.empty).2).2 :=
    ReachableVia.call anonType _
      (ReachableVia.call goodType _ ReachableVia.refl (Or.inl rfl)) (Or.inr rfl)
  ⟨hr, caching_is_transparent asciiLower (fun t => t = goodType ∨ t = anonType) _ goodType
    (by
      rintro a b (rfl | rfl) (rfl | rfl) h
      · rfl
      · exact absurd h (by decide)
      · exact absurd h (by decide)
      · rfl)
    hr (Or.inl rfl)⟩

/-! ## The example type `Point` and nil pointers -/

/-- C14, the claim as stated fails: with `Y` annotated `y,c` no lower-casing function
makes `getStructFields` return the descriptors `x` at 0, not conditional, and `y` at 1,
conditional. -/
theorem point_comma_not_conditional :
    ¬ ∃ (T : String → String) (sf : structFields),
      (getStructFields T pointComma GoMap.empty).1 = .ok sf ∧
        sf.List = [⟨"x", 0, false⟩, ⟨"y", 1, true⟩] := by
  rintro ⟨T, sf, h, hl⟩
  have he : (getStructFields T pointComma GoMap.empty).1
      = .ok ⟨⟨[("y,c", ⟨"y,c", 1, false⟩), ("x", ⟨"x", 0, false⟩)]⟩,
          [⟨"x", 0, false⟩, ⟨"y,c", 1, false⟩]⟩ := rfl
  rw [he] at h
  injection h with h
  rw [← h] at hl
  revert hl
  decide

/-- C14, amended: for `Point` with `X` annotated `x` and `Y` annotated `y/c` the
descriptors are `x` at position 0, not conditional, and `y` at position 1, conditional,
so with `X = 0` and `Y = 0` the field `Y` is skipped on encode and `X` is not.  With `Y`
annotated `y,c` the descriptors are `x` at 0 and `y,c` at 1, neither conditional, and
no field is skipped. -/
theorem point_descriptors (T : String → String) :
    (getStructFields T pointSlash GoMap.empty).1
        = .ok ⟨⟨[("y", ⟨"y", 1, true⟩), ("x", ⟨"x", 0, false⟩)]⟩,
            [⟨"x", 0, false⟩, ⟨"y", 1, true⟩]⟩ ∧
      skippedOnEncode ⟨"y", 1, true⟩ (.IntValue 0) = true ∧
      skippedOnEncode ⟨"x", 0, false⟩ (.IntValue 0) = false ∧
      isZero (.IntValue 0) = true ∧
      (getStructFields T pointComma GoMap.empty).1
        = .ok ⟨⟨[("y,c", ⟨"y,c", 1, false⟩), ("x", ⟨"x", 0, false⟩)]⟩,
            [⟨"x", 0, false⟩, ⟨"y,c", 1, false⟩]⟩ ∧
      skippedOnEncode ⟨"y,c", 1, false⟩ (.IntValue 0) = false :=
  ⟨rfl, rfl, rfl, rfl, rfl, rfl⟩

/-- C15, the claim as stated fails: `isZero` of a nil pointer is false, and a
conditional field holding a nil pointer is not skipped. -/
theorem isZero_nil_pointer_false :
    isZero (.PtrValue none) = false ∧
      skippedOnEncode ⟨"p", 0, true⟩ (.PtrValue none) = false :=
  ⟨rfl, rfl⟩

/-- C15, amended: `isZero` is true for a nil interface value and false for every pointer
value, nil or not; a conditional field holding a nil interface is skipped on encode, a
field holding a pointer never is. -/
theorem isZero_nil_reference (info : fieldInfo) :
    isZero (.InterfaceValue none) = true ∧
      (∀ elem, isZero (.PtrValue elem) = false) ∧
      (∀ elem, skippedOnEncode info (.PtrValue elem) = false) ∧
      skippedOnEncode ⟨info.Key, info.Num, true⟩ (.InterfaceValue none) = true := by
  refine ⟨rfl, fun _ => rfl, fun _ => ?_, rfl⟩
  simp [skippedOnEncode, isZero]

/-! ## The indexed write of line 117 -/

/-- Running the loop over `a ++ b` is running it over `a` and then, from the state
reached, over `b`. -/
theorem fieldLoop_append (T : String → String) (ts : String) (a b : List StructField) :
    ∀ (i : Nat) (m : GoMap fieldInfo) (l : List fieldInfo),
      fieldLoop T ts (a ++ b) i m l =
        match fieldLoop T ts a i m l with
        | .ok s => fieldLoop T ts b (i + a.length) s.1 s.2
        | .error msg => .error msg
        | .panic v => .panic v := by
  induction a with
  | nil => intro i m l; simp [fieldLoop]
  | cons f rest ih =>
    intro i m l
    have hlen : i + (f :: rest).length = i + 1 + rest.length := by
      simp only [List.length_cons]
      omega
    rw [hlen, List.cons_append]
    by_cases hp : f.PkgPath = ""
    · simp only [fieldLoop, hp, ne_eq, not_true_eq_false, if_false]
      cases makeInfo T f i with
      | panic v => rfl
      | error msg => rfl
      | ok info =>
        simp only []
        by_cases h1 : (m.lookup info.Key).isSome = true
        · simp only [h1, if_true]
        · by_cases h2 : m.len < l.length
          · simp only [h1, h2, if_true, if_false]
            exact ih _ _ _
          · simp [h1, h2]
    · simp only [fieldLoop, hp, ne_eq, not_false_eq_true, if_true]
      exact ih _ _ _

theorem visibleFrom_length (i : Nat) (fs : List StructField) :
    (visibleFrom i fs).length = (fs.filter (fun f => f.PkgPath = "")).length := by
  induction fs generalizing i with
  | nil => rfl
  | cons f rest ih =>
    by_cases hp : f.PkgPath = ""
    · rw [visibleFrom_cons_visible i f rest hp]
      simp [List.filter, hp, ih]
    · rw [visibleFrom_cons_private i f rest hp]
      simp [List.filter, hp, ih]

/-- The state of the loop after any run of fields from the initial state: the map
indexes the descriptors of the visible fields seen, the slice holds them in front of the
zero values that are left. -/
theorem loopStateAt_eq (T : String → String) (st : StructType) (i : Nat)
    (fm : GoMap fieldInfo) (fl : List fieldInfo) (hs : loopStateAt T st i = .ok (fm, fl)) :
    Clean T (visibleFrom 0 (st.Fields.take i)) [] ∧
      fm = keyIndex ((visibleFrom 0 (st.Fields.take i)).map (specInfo T)) ∧
      fl = (visibleFrom 0 (st.Fields.take i)).map (specInfo T) ++
        List.replicate (st.NumField - (visibleFrom 0 (st.Fields.take i)).length)
          fieldInfo.zero := by
  have hle : (visibleFrom 0 (st.Fields.take i)).length ≤ st.NumField := by
    rw [visibleFrom_length]
    refine (List.length_filter_le _ _).trans ?_
    rw [List.length_take]
    exact Nat.min_le_right _ _
  have h := fieldLoop_eq_collect T st.String (st.Fields.take i) 0 [] st.NumField hle
  have he : keyIndex [] = GoMap.empty := rfl
  simp only [List.nil_append, he] at h
  rw [loopStateAt, h] at hs
  rcases collect_cases T st.String (visibleFrom 0 (st.Fields.take i)) [] with ⟨hc, hr⟩ |
    ⟨_, _, _, _, _, _, _, hr⟩ | ⟨_, _, _, _, _, _, _, hr⟩
  · rw [hr] at hs
    simp only [List.nil_append, List.length_nil, Nat.add_zero, List.length_map,
      Outcome.ok.injEq, Prod.mk.injEq] at hs
    exact ⟨hc, hs.1.symm, hs.2.symm⟩
  · rw [hr] at hs
    cases hs
  · rw [hr] at hs
    cases hs

/-- C19: when the loop reaches iteration `i`, `len(fieldsMap)` is the number of visible
fields among `Field(0) .. Field(i-1)`, each stored under its own key, so that
`len(fieldsMap) <= i < n = len(fieldsList)` and the write `fieldsList[len(fieldsMap)]`
is in bounds: `getStructFields` never panics with a run-time error.  The final slice
`fieldsList[:len(fieldsMap)]` holds the descriptors written for the visible fields and
nothing else; it holds no zero-valued `fieldInfo` when no field name lowercases to
the empty string. -/
theorem indexed_write_in_bounds (T : String → String) (st : StructType) (i : Nat)
    (fm : GoMap fieldInfo) (fl : List fieldInfo) (hi : i < st.NumField)
    (hs : loopStateAt T st i = .ok (fm, fl)) :
    fm.len = ((st.Fields.take i).filter (fun f => f.PkgPath = "")).length ∧
      (fm.entries.map Prod.fst).Nodup ∧
      fl.length = st.NumField ∧ fm.len ≤ i ∧ fm.len < fl.length ∧
      fieldLoop T st.String st.Fields 0 GoMap.empty
          (List.replicate st.NumField fieldInfo.zero)
        = fieldLoop T st.String (st.Fields.drop i) i fm fl ∧
      (∀ msg, buildFields T st ≠ .panic (.runtimeError msg)) ∧
      ∀ sf, buildFields T st = .ok sf →
        (∀ e ∈ sf.List, ∃ f, st.Fields[e.Num]? = some f ∧ f.PkgPath = "" ∧
          makeInfo T f e.Num = .ok e) ∧
        sf.List.length = (st.Fields.filter (fun f => f.PkgPath = "")).length ∧
        ((∀ f ∈ st.Fields, T f.Name ≠ "") → fieldInfo.zero ∉ sf.List) := by
  obtain ⟨hc, hfm, hfl⟩ := loopStateAt_eq T st i fm fl hs
  have hcount : (visibleFrom 0 (st.Fields.take i)).length
      = ((st.Fields.take i).filter (fun f => f.PkgPath = "")).length :=
    visibleFrom_length 0 _
  have hlei : ((st.Fields.take i).filter (fun f => f.PkgPath = "")).length ≤ i :=
    (List.length_filter_le _ _).trans (List.length_take_le _ _)
  have hlen : fm.len = ((st.Fields.take i).filter (fun f => f.PkgPath = "")).length := by
    rw [hfm, len_keyIndex, List.length_map, hcount]
  have hfll : fl.length = st.NumField := by
    rw [hfl, List.length_append, List.length_map, List.length_replicate, hcount]
    omega
  refine ⟨hlen, ?_, hfll, by omega, by omega, ?_, ?_, ?_⟩
  · have hn := ((clean_nil_acc T _).mp hc).2
    rw [hfm]
    simp only [keyIndex, List.map_reverse, List.map_map, List.nodup_reverse]
    simpa [specKeys, specInfo, Function.comp_def] using hn
  · have hsplit := fieldLoop_append T st.String (st.Fields.take i) (st.Fields.drop i) 0
      GoMap.empty (List.replicate st.NumField fieldInfo.zero)
    rw [List.take_append_drop] at hsplit
    rw [loopStateAt] at hs
    rw [hsplit, hs]
    have htl : (st.Fields.take i).length = i := by
      rw [List.length_take]
      exact Nat.min_eq_left (Nat.le_of_lt hi)
    simp only [htl, Nat.zero_add]
  · intro msg h
    rcases buildFields_cases T st with ⟨_, hr⟩ | ⟨_, _, _, _, _, _, _, hr⟩ |
      ⟨_, _, _, _, _, _, _, hr⟩ <;>
    · rw [hr] at h
      cases h
  · intro sf hsf
    refine ⟨?_, ?_, ?_⟩
    · intro e he
      obtain ⟨f, h1, h2, h3, h4⟩ := buildFields_entry T st sf hsf e he
      refine ⟨f, h1, h2, ?_⟩
      rw [makeInfo_eq, h3]
      exact congrArg Outcome.ok h4.symm
    · obtain ⟨_, rfl⟩ := buildFields_ok T st sf hsf
      rw [List.length_map, ← visibleFields_map_snd, List.length_map]
    · intro hkeys hz
      obtain ⟨_, rfl⟩ := buildFields_ok T st sf hsf
      obtain ⟨⟨j, f⟩, hp, hpz⟩ := List.mem_map.mp hz
      have hkey : specKey T f = "" := congrArg fieldInfo.Key hpz
      have hf : f ∈ st.Fields := List.getElem?_mem ((mem_visibleFields st j f).mp hp).1
      by_cases ht : tagName f.Tag = ""
      · simp only [specKey, ht, ne_eq, not_true_eq_false, if_false] at hkey
        exact hkeys f hf hkey
      · simp only [specKey, ht, ne_eq, not_false_eq_true, if_true] at hkey

/-- Witness of C19 on `goodType` at iteration 3, where two descriptors are stored. -/
theorem indexed_write_in_bounds_witness :
    3 < goodType.NumField ∧
      loopStateAt asciiLower goodType 3
        = .ok (⟨[("y", ⟨"y", 1, true⟩), ("x", ⟨"x", 0, false⟩)]⟩,
            [⟨"x", 0, false⟩, ⟨"y", 1, true⟩, fieldInfo.zero, fieldInfo.zero]) ∧
      (2 : Nat) < 4 ∧
      ∀ msg, buildFields asciiLower goodType ≠ .panic (.runtimeError msg) :=
  have h := indexed_write_in_bounds asciiLower goodType 3
    ⟨[("y", ⟨"y", 1, true⟩), ("x", ⟨"x", 0, false⟩)]⟩
    [⟨"x", 0, false⟩, ⟨"y", 1, true⟩, fieldInfo.zero, fieldInfo.zero] (by decide) (by decide)
  ⟨by decide, by decide, h.2.2.2.2.1, h.2.2.2.2.2.2.1⟩

end Goyaml
